import Mathlib

/-!
Verification of the LocalStack MCP server's log retrieval/parsing/analysis core
and command-runner layer, shallowly embedded from the TypeScript sources
(`lib/logs/log-retriever.ts`, `lib/iam/iam-policy.logic.ts`,
`core/command-runner.ts`).  Strings are modelled as Lean `String`/`List Char`;
JavaScript regular-expression searches are embedded as explicit left-to-right
scanners faithful to the regex semantics used by the code; `undefined`-able
fields become `Option`; JS truthiness of a string/number is emptiness/zero
testing.
-/

/-- ASCII whitespace, modelling the characters JS `\s` and `trim` treat as
whitespace on the ASCII range. -/
def isWsChar (c : Char) : Bool :=
  c = ' ' || c = '\t' || c = '\n' || c = '\r' || c = '\x0b' || c = '\x0c'

/-- JS `\w` word characters on the ASCII range: letters, digits, underscore. -/
def isWordChar (c : Char) : Bool :=
  c.isAlpha || c.isDigit || c = '_'

/-- Characters of the volatile-ID class `[a-fA-F0-9-]` used by `groupLogsByError`. -/
def isIdClass (c : Char) : Bool :=
  c.isDigit || ('a' ≤ c && c ≤ 'f') || ('A' ≤ c && c ≤ 'F') || c = '-'

/-- ASCII lowercasing of a string, modelling JS `toLowerCase` on ASCII input. -/
def lowerStr (s : String) : String :=
  ⟨s.data.map Char.toLower⟩

/-- Truthiness of an optional string in JS: present and non-empty. -/
def truthyS (o : Option String) : Bool :=
  match o with
  | some s => s ≠ ""
  | none => false

/-- Truthiness of an optional number in JS: present and non-zero. -/
def truthyN (o : Option Nat) : Bool :=
  match o with
  | some n => n ≠ 0
  | none => false

/-- Drop a literal prefix, returning the remainder on success. -/
def dropLit : List Char → List Char → Option (List Char)
  | [], rest => some rest
  | _, [] => none
  | p :: ps, c :: cs => if c = p then dropLit ps cs else none

/-- Drop a literal prefix case-insensitively (ASCII). -/
def dropLitCI : List Char → List Char → Option (List Char)
  | [], rest => some rest
  | _, [] => none
  | p :: ps, c :: cs =>
    if c.toLower = p.toLower then dropLitCI ps cs else none

/-- First `some` produced by `f` over a list, in order. -/
def firstSome (f : α → Option β) : List α → Option β
  | [] => none
  | a :: as =>
    match f a with
    | some b => some b
    | none => firstSome f as

/-- JS `String.prototype.includes` on char lists. -/
def inclAux (sub : List Char) : List Char → Bool
  | [] => sub.isEmpty
  | c :: cs => sub.isPrefixOf (c :: cs) || inclAux sub cs

/-- JS `s.includes(sub)`. -/
def strIncludes (s sub : String) : Bool :=
  inclAux sub.data s.data

/-- JS `s.startsWith(pre)`. -/
def strStartsWith (s pre : String) : Bool :=
  pre.data.isPrefixOf s.data

/-- JS `s.split("\n")` on char lists. -/
def splitNl : List Char → List (List Char)
  | [] => [[]]
  | c :: cs =>
    if c = '\n' then [] :: splitNl cs
    else
      match splitNl cs with
      | h :: t => (c :: h) :: t
      | [] => [[c]]

/-- JS `s.split("\n")`. -/
def jsSplitLines (s : String) : List String :=
  (splitNl s.data).map fun l => ⟨l⟩

/-- JS `s.trim()` (ASCII whitespace). -/
def jsTrim (s : String) : String :=
  ⟨((s.data.dropWhile isWsChar).reverse.dropWhile isWsChar).reverse⟩

/-- Numeric value of a digit list (the effect of `parseInt` on a digit-only
match such as `\d{3}`). -/
def natOfDigits (ds : List Char) : Nat :=
  ds.foldl (fun acc c => acc * 10 + (c.toNat - '0'.toNat)) 0

/-- `LogEntry` from `lib/logs/log-retriever.ts`: one parsed log line. -/
structure LogEntry where
  timestamp : Option String := none
  level : Option String := none
  service : Option String := none
  operation : Option String := none
  statusCode : Option Nat := none
  message : String := ""
  fullLine : String := ""
  isApiCall : Bool := false
  isError : Bool := false
  isWarning : Bool := false
  requestId : Option String := none
  isIamDenial : Bool := false
  iamPrincipal : Option String := none
  iamAction : Option String := none
  iamResource : Option String := none
  deriving Repr, DecidableEq

/-- `LogRetrievalResult` from `lib/logs/log-retriever.ts`. -/
structure LogRetrievalResult where
  success : Bool
  logs : List LogEntry
  totalLines : Nat
  errorMessage : Option String := none
  filteredLines : Option Nat := none
  deriving Repr, DecidableEq

/-- `CommandResult` from `core/command-runner.ts`; the `Error` object is
modelled by its message string. -/
structure CommandResult where
  stdout : String
  stderr : String
  error : Option String := none
  exitCode : Option Int := none
  deriving Repr, DecidableEq

/-- `UniquePermission` from `lib/iam/iam-policy.logic.ts`. -/
structure UniquePermission where
  principal : String
  action : String
  resource : String
  deriving Repr, DecidableEq

/-! ## IAM correlation and policy synthesis (`lib/iam/iam-policy.logic.ts`) -/

/-- One statement of the generated policy document.  The `Principal` field is
optional so that its absence is an observable fact of the generated value. -/
structure PolicyStatement where
  Sid : String
  Effect : String
  Principal : Option String := none
  Action : List String
  Resource : String
  deriving Repr, DecidableEq

/-- The generated policy document. -/
structure PolicyDoc where
  Version : String
  Statement : List PolicyStatement
  deriving Repr, DecidableEq

/-- `resourcesToActionMap.get(resource)!.add(permission.action)` on an
insertion-ordered map of insertion-ordered sets (JS `Map`/`Set`). -/
def addAction (m : List (String × List String)) (r : String) (a : String) :
    List (String × List String) :=
  match m with
  | [] => [(r, [a])]
  | (r', as) :: rest =>
    if r' = r then (r', if a ∈ as then as else as ++ [a]) :: rest
    else (r', as) :: addAction rest r a

/-- The `resourcesToActionMap` accumulation loop of `generateIamPolicy`:
`permission.resource || "*"` keys an insertion-ordered map of action sets. -/
def buildResourceMap (perms : List UniquePermission) : List (String × List String) :=
  perms.foldl (fun m p => addAction m (if p.resource = "" then "*" else p.resource) p.action) []

/-- Sorted insertion used to model JS `Array.prototype.sort()` on strings. -/
def insSorted (x : String) (l : List String) : List String :=
  match l with
  | [] => [x]
  | y :: ys => if x ≤ y then x :: y :: ys else y :: insSorted x ys

/-- `Array.from(actions).sort()`: code-unit ascending sort of the action set. -/
def sortActions (l : List String) : List String :=
  l.foldr insSorted []

/-- Pair each list element with its index, modelling `.map((entry, i) => ...)`. -/
def withIdx : Nat → List α → List (Nat × α)
  | _, [] => []
  | i, a :: as => (i, a) :: withIdx (i + 1) as

/-- `generateIamPolicy` from `lib/iam/iam-policy.logic.ts`: one `Allow`
statement per resource, sorted deduplicated action list, no `Principal`. -/
def generateIamPolicy (perms : List UniquePermission) : PolicyDoc :=
  { Version := "2012-10-17"
    Statement :=
      (withIdx 0 (buildResourceMap perms)).map fun p =>
        { Sid := "GeneratedStatement" ++ toString (p.1 + 1)
          Effect := "Allow"
          Principal := none
          Action := sortActions p.2.2
          Resource := p.2.1 } }

/-- The deduplication key `"<principal>|<action>|<resource>"`. -/
def dedupKey (p a r : String) : String :=
  p ++ "|" ++ a ++ "|" ++ r

/-- `if (!permissionMap.has(key)) permissionMap.set(key, v)` on an
insertion-ordered map. -/
def insertIfAbsent (m : List (String × UniquePermission)) (k : String)
    (v : UniquePermission) : List (String × UniquePermission) :=
  if m.any fun e => e.1 = k then m else m ++ [(k, v)]

/-- `denial.iamResource || "*"`. -/
def resourceOf (d : LogEntry) : String :=
  match d.iamResource with
  | some r => if r = "" then "*" else r
  | none => "*"

/-- The permission recorded for one denial. -/
def permOf (d : LogEntry) : UniquePermission :=
  ⟨d.iamPrincipal.getD "", d.iamAction.getD "", resourceOf d⟩

/-- The deduplication key of one denial. -/
def keyOf (d : LogEntry) : String :=
  dedupKey (d.iamPrincipal.getD "") (d.iamAction.getD "") (resourceOf d)

/-- The loop body of `deduplicatePermissions`: skip denials lacking a truthy
principal or action, record first occurrences of a key. -/
def dedupStep (m : List (String × UniquePermission)) (d : LogEntry) :
    List (String × UniquePermission) :=
  if !truthyS d.iamPrincipal || !truthyS d.iamAction then m
  else insertIfAbsent m (keyOf d) (permOf d)

/-- `deduplicatePermissions` from `lib/iam/iam-policy.logic.ts`. -/
def deduplicatePermissions (denials : List LogEntry) :
    List (String × UniquePermission) :=
  denials.foldl dedupStep []

/-- The filter predicate inside `enrichWithResourceData`, parametrised by the
timestamp interpretation `getTime` (JS `new Date(s).getTime()`, `none` for an
invalid date / `NaN`). -/
def nearbyFilter (getTime : String → Option Int) (denialTime : Option Int)
    (denialAction : Option String) (log : LogEntry) : Bool :=
  if !truthyS log.timestamp || !truthyS log.iamResource then false
  else
    match getTime (log.timestamp.getD ""), denialTime with
    | some lt, some dt =>
      decide (log.iamAction = denialAction) && decide ((lt - dt).natAbs ≤ 5000)
    | _, _ => false

/-- The per-denial body of `enrichWithResourceData`. -/
def enrichOne (getTime : String → Option Int) (allLogs : List LogEntry)
    (denial : LogEntry) : LogEntry :=
  if truthyS denial.timestamp && truthyS denial.iamAction then
    let denialTime := getTime (denial.timestamp.getD "")
    let nearby := allLogs.filter (nearbyFilter getTime denialTime denial.iamAction)
    match nearby.head? with
    | some m => { denial with iamResource := m.iamResource }
    | none => denial
  else denial

/-- `enrichWithResourceData` from `lib/iam/iam-policy.logic.ts` (async but
purely computational), parametrised by the timestamp interpretation. -/
def enrichWithResourceData (getTime : String → Option Int)
    (denials allLogs : List LogEntry) : List LogEntry :=
  denials.map (enrichOne getTime allLogs)

/-! ## Process runner (`core/command-runner.ts`), as an event-sequence model -/

/-- Mutable closure state of one `runCommand` invocation. -/
structure RunState where
  stdout : String := ""
  stderr : String := ""
  outBytes : Nat := 0
  errBytes : Nat := 0
  timedOut : Bool := false
  bufferExceeded : Bool := false
  error : Option String := none
  killed : Bool := false
  deriving Repr, DecidableEq

/-- Asynchronous events delivered to the `runCommand` closure. -/
inductive RunEvent where
  | out (data : String)
  | err (data : String)
  | timeout
  | spawnError (msg : String)
  | close (code : Option Int)
  deriving Repr, DecidableEq

/-- The timeout kill reason. -/
def timeoutMsg (timeout : Nat) : String :=
  "Command timed out after " ++ toString timeout ++ "ms"

/-- The buffer-ceiling kill reason for one stream. -/
def maxBufMsg (stream : String) (maxBuffer : Nat) : String :=
  stream ++ " exceeded maxBuffer size of " ++ toString maxBuffer ++ " bytes"

/-- `killProcess(reason)`: records the reason unless already killed. -/
def killProcess (s : RunState) (reason : String) : RunState :=
  if s.killed then s else { s with error := some reason, killed := true }

/-- Processing of one non-`close` event by the `runCommand` closure. -/
def stepEvent (timeout maxBuffer : Nat) (s : RunState) : RunEvent → RunState
  | .out data =>
    if s.timedOut || s.bufferExceeded then s
    else
      let s' := { s with outBytes := s.outBytes + data.length,
                         stdout := s.stdout ++ data }
      if s'.outBytes > maxBuffer then
        killProcess { s' with bufferExceeded := true } (maxBufMsg "stdout" maxBuffer)
      else s'
  | .err data =>
    if s.timedOut || s.bufferExceeded then s
    else
      let s' := { s with errBytes := s.errBytes + data.length,
                         stderr := s.stderr ++ data }
      if s'.errBytes > maxBuffer then
        killProcess { s' with bufferExceeded := true } (maxBufMsg "stderr" maxBuffer)
      else s'
  | .timeout => killProcess { s with timedOut := true } (timeoutMsg timeout)
  | .spawnError msg => { s with error := some msg }
  | .close _ => s

/-- JS string interpolation of the exit code (`null` when killed by signal). -/
def codeRepr : Option Int → String
  | some n => toString n
  | none => "null"

/-- The `close` handler: synthesize an exit-code error only when no timeout,
no buffer overflow, a non-zero (or null) code, and no prior error. -/
def closeResult (s : RunState) (code : Option Int) : CommandResult :=
  { stdout := s.stdout, stderr := s.stderr,
    error :=
      if ¬s.timedOut ∧ ¬s.bufferExceeded ∧ code ≠ some 0 ∧ s.error = none then
        some ("Command failed with exit code " ++ codeRepr code ++ ": " ++ jsTrim s.stderr)
      else s.error,
    exitCode := code }

/-- `runCommand` over a delivered event sequence: the promise resolves exactly
at the first `close` event. -/
def runCommandModel (timeout maxBuffer : Nat) : RunState → List RunEvent →
    Option CommandResult
  | _, [] => none
  | s, .close code :: _ => some (closeResult s code)
  | s, e :: rest => runCommandModel timeout maxBuffer (stepEvent timeout maxBuffer s e) rest

/-! ## Log line parser (`parseLogLine` in `lib/logs/log-retriever.ts`).
Each regular expression of the source is embedded as a left-to-right scanner
returning the leftmost match, with greedy character classes; backtracking is
reflected exactly where it can fire for the given pattern. -/

/-- Match exactly `n` digits at the head, returning them and the remainder
(`\d{n}` allows further digits to follow). -/
def matchDigits : Nat → List Char → Option (List Char × List Char)
  | 0, cs => some ([], cs)
  | _ + 1, [] => none
  | n + 1, c :: cs =>
    if c.isDigit then
      match matchDigits n cs with
      | some (ds, rest) => some (c :: ds, rest)
      | none => none
    else none

/-- Match the fixed ISO-like shape
`\d{4}-\d{2}-\d{2}T\d{2}:\d{2}:\d{2}\.\d{3}` at the head, returning the
matched characters and the remainder. -/
def matchTsAt (cs : List Char) : Option (List Char × List Char) := do
  let (d1, r1) ← matchDigits 4 cs
  let r2 ← dropLit ['-'] r1
  let (d2, r3) ← matchDigits 2 r2
  let r4 ← dropLit ['-'] r3
  let (d3, r5) ← matchDigits 2 r4
  let r6 ← dropLit ['T'] r5
  let (d4, r7) ← matchDigits 2 r6
  let r8 ← dropLit [':'] r7
  let (d5, r9) ← matchDigits 2 r8
  let r10 ← dropLit [':'] r9
  let (d6, r11) ← matchDigits 2 r10
  let r12 ← dropLit ['.'] r11
  let (d7, r13) ← matchDigits 3 r12
  return (d1 ++ '-' :: d2 ++ '-' :: d3 ++ 'T' :: d4 ++ ':' :: d5 ++ ':' :: d6 ++ '.' :: d7, r13)

/-- Leftmost match of the timestamp pattern anywhere in the line. -/
def findTs : List Char → Option (List Char)
  | [] => none
  | c :: cs =>
    match matchTsAt (c :: cs) with
    | some (m, _) => some m
    | none => findTs cs

/-- Whether a whole string is exactly one ISO-like timestamp. -/
def isIsoTimestamp (s : String) : Bool :=
  match matchTsAt s.data with
  | some (_, rest) => rest.isEmpty
  | none => false

/-- The level vocabulary, in the alternation order of the source regex. -/
def levelTokens : List (List Char) :=
  ["DEBUG".data, "INFO".data, "WARN".data, "WARNING".data, "ERROR".data,
   "FATAL".data, "TRACE".data]

/-- At a token position, the first level alternative that matches and is
followed by at least one whitespace character (`(DEBUG|...)\s+`). -/
def matchLevelTok (cs : List Char) : Option (List Char) :=
  firstSome
    (fun t =>
      match dropLit t cs with
      | some (r :: _) => if isWsChar r then some t else none
      | _ => none)
    levelTokens

/-- Leftmost match of `\s+(DEBUG|INFO|WARN|WARNING|ERROR|FATAL|TRACE)\s+`:
the token must sit at the end of a maximal whitespace run. -/
def findLevel : List Char → Option (List Char)
  | [] => none
  | c :: cs =>
    if isWsChar c then
      match matchLevelTok ((c :: cs).dropWhile isWsChar) with
      | some t => some t
      | none => findLevel cs
    else findLevel cs

/-- Character class `[a-z0-9_-]` of the API service capture. -/
def isSvcChar (c : Char) : Bool :=
  c.isLower || c.isDigit || c = '_' || c = '-'

/-- ASCII letter (`[A-Za-z]`). -/
def isAlphaChar (c : Char) : Bool :=
  c.isUpper || c.isLower

/-- Match the LocalStack API pattern
`AWS\s+([a-z0-9_-]+)\.([A-Za-z]+)\s*=>\s*(\d{3})\s*(?:\(([^)]+)\))?`
at the head, returning service, operation, status digits and optional
parenthesised detail. -/
def matchApiAt (cs : List Char) :
    Option (List Char × List Char × List Char × Option (List Char)) := do
  let r1 ← dropLit "AWS".data cs
  match r1 with
  | [] => none
  | w :: _ =>
    if !isWsChar w then none
    else
      let r2 := r1.dropWhile isWsChar
      let svc := r2.takeWhile isSvcChar
      if svc.isEmpty then none
      else do
        let r3 ← dropLit ['.'] (r2.drop svc.length)
        let op := r3.takeWhile isAlphaChar
        if op.isEmpty then none
        else do
          let r4 := (r3.drop op.length).dropWhile isWsChar
          let r5 ← dropLit "=>".data r4
          let r6 := r5.dropWhile isWsChar
          let (digits, r7) ← matchDigits 3 r6
          let r8 := r7.dropWhile isWsChar
          let detail :=
            match r8 with
            | '(' :: r9 =>
              let content := r9.takeWhile (· ≠ ')')
              if !content.isEmpty && (r9.drop content.length).head? = some ')' then
                some content
              else none
            | _ => none
          return (svc, op, digits, detail)

/-- Leftmost match of the LocalStack API pattern anywhere in the line. -/
def findApi : List Char → Option (List Char × List Char × List Char × Option (List Char))
  | [] => none
  | c :: cs =>
    match matchApiAt (c :: cs) with
    | some m => some m
    | none => findApi cs

/-- HTTP method alternatives of the first fallback API pattern. -/
def httpMethods : List (List Char) :=
  ["GET".data, "POST".data, "PUT".data, "DELETE".data, "HEAD".data,
   "PATCH".data, "OPTIONS".data]

/-- Match `(GET|POST|PUT|DELETE|HEAD|PATCH|OPTIONS)\s+[^\s]+\s+(\d{3})` at the
head, returning the status digits (the last capture group). -/
def matchHttpAt (cs : List Char) : Option (List Char) :=
  firstSome
    (fun m => do
      let r1 ← dropLit m cs
      match r1 with
      | [] => none
      | w :: _ =>
        if !isWsChar w then none
        else
          let r2 := r1.dropWhile isWsChar
          let tok := r2.takeWhile fun c => !isWsChar c
          if tok.isEmpty then none
          else
            match r2.drop tok.length with
            | [] => none
            | w2 :: _ =>
              if !isWsChar w2 then none
              else do
                let (digits, _) ← matchDigits 3 ((r2.drop tok.length).dropWhile isWsChar)
                return digits)
    httpMethods

/-- Leftmost match of the HTTP-method fallback pattern. -/
def findHttp : List Char → Option (List Char)
  | [] => none
  | c :: cs =>
    match matchHttpAt (c :: cs) with
    | some m => some m
    | none => findHttp cs

/-- Reason-phrase alternatives of the second fallback API pattern, in
alternation order. -/
def statusReasons : List (List Char) :=
  ["OK".data, "Created".data, "Accepted".data, "Bad Request".data,
   "Unauthorized".data, "Forbidden".data, "Not Found".data,
   "Method Not Allowed".data, "Conflict".data, "Internal Server Error".data,
   "Bad Gateway".data, "Service Unavailable".data]

/-- Match `(\d{3})\s+(OK|Created|...)/i` at the head.  The source then calls
`parseInt` on the *reason* capture (the last group), which is `NaN`, so only
the fact of a match is relevant. -/
def matchReasonAt (cs : List Char) : Option Unit := do
  let (_, r1) ← matchDigits 3 cs
  match r1 with
  | [] => none
  | w :: _ =>
    if !isWsChar w then none
    else
      firstSome (fun t => (dropLitCI t (r1.dropWhile isWsChar)).map fun _ => ())
        statusReasons

/-- Leftmost match of the status-plus-reason fallback pattern. -/
def findReason : List Char → Option Unit
  | [] => none
  | c :: cs =>
    match matchReasonAt (c :: cs) with
    | some m => some m
    | none => findReason cs

/-- Character class `[a-z0-9_]` of the service captures, matched
case-insensitively by the `/i` patterns. -/
def isSvcCIChar (c : Char) : Bool :=
  c.isAlpha || c.isDigit || c = '_'

/-- Match `localstack\.services\.([a-z0-9_]+)/i` at the head, returning the
capture. -/
def matchSvcDotAt (cs : List Char) : Option (List Char) := do
  let r1 ← dropLitCI "localstack.services.".data cs
  let run := r1.takeWhile isSvcCIChar
  if run.isEmpty then none else return run

/-- Leftmost match of the `localstack.services.` pattern. -/
def findSvcDot : List Char → Option (List Char)
  | [] => none
  | c :: cs =>
    match matchSvcDotAt (c :: cs) with
    | some m => some m
    | none => findSvcDot cs

/-- The lazy tail `.*?([a-z0-9_]+)\.` of the request pattern: the first
position whose maximal class run is non-empty and followed by a dot. -/
def svcReqTail : List Char → Option (List Char)
  | [] => none
  | c :: cs =>
    let run := (c :: cs).takeWhile isSvcCIChar
    if !run.isEmpty && ((c :: cs).drop run.length).head? = some '.' then some run
    else svcReqTail cs

/-- Match `localstack\.request\.aws.*?([a-z0-9_]+)\./i` at the head. -/
def matchSvcReqAt (cs : List Char) : Option (List Char) := do
  let r1 ← dropLitCI "localstack.request.aws".data cs
  svcReqTail r1

/-- Leftmost match of the `localstack.request.aws` pattern. -/
def findSvcReq : List Char → Option (List Char)
  | [] => none
  | c :: cs =>
    match matchSvcReqAt (c :: cs) with
    | some m => some m
    | none => findSvcReq cs

/-- The fixed vocabulary of service names, in alternation order. -/
def serviceWords : List (List Char) :=
  ["s3".data, "lambda".data, "dynamodb".data, "sqs".data, "sns".data,
   "apigateway".data, "cloudformation".data, "iam".data, "sts".data,
   "ec2".data, "rds".data, "kinesis".data, "elasticsearch".data,
   "cloudwatch".data, "logs".data, "events".data, "secretsmanager".data,
   "ssm".data, "kms".data, "route53".data, "cloudfront".data, "acm".data,
   "cognito".data, "stepfunctions".data, "batch".data, "ecs".data,
   "eks".data, "fargate".data]

/-- Match `\b(s3|lambda|...)\b/i` at the head given the word status of the
preceding character; the capture is the original-case text. -/
def matchSvcWordAt (prevW : Bool) (cs : List Char) : Option (List Char) :=
  if prevW then none
  else
    firstSome
      (fun w => do
        let rest ← dropLitCI w cs
        match rest.head? with
        | some c => if isWordChar c then none else return cs.take w.length
        | none => return cs.take w.length)
      serviceWords

/-- Leftmost match of the service-vocabulary pattern, threading the preceding
character's word status for `\b`. -/
def findSvcWord (prevW : Bool) : List Char → Option (List Char)
  | [] => none
  | c :: cs =>
    match matchSvcWordAt prevW (c :: cs) with
    | some m => some m
    | none => findSvcWord (isWordChar c) cs

/-- Match the PascalCase operation pattern `\b([A-Z][a-z]+[A-Z][a-zA-Z]*)\b`
at the head given the preceding character's word status. -/
def matchPascalAt (prevW : Bool) (cs : List Char) : Option (List Char) :=
  if prevW then none
  else
    match cs with
    | [] => none
    | c :: rest =>
      if !c.isUpper then none
      else
        let lows := rest.takeWhile Char.isLower
        if lows.isEmpty then none
        else
          match rest.drop lows.length with
          | [] => none
          | d :: rest2 =>
            if !d.isUpper then none
            else
              let tail := rest2.takeWhile isAlphaChar
              match (rest2.drop tail.length).head? with
              | some e => if isWordChar e then none else some (c :: lows ++ d :: tail)
              | none => some (c :: lows ++ d :: tail)

/-- Leftmost match of the PascalCase pattern. -/
def findPascal (prevW : Bool) : List Char → Option (List Char)
  | [] => none
  | c :: cs =>
    match matchPascalAt prevW (c :: cs) with
    | some m => some m
    | none => findPascal (isWordChar c) cs

/-- Match `[?&]Action=([A-Za-z]+)` at the head. -/
def matchActionParamAt (cs : List Char) : Option (List Char) :=
  match cs with
  | [] => none
  | c :: rest =>
    if c = '?' || c = '&' then do
      let r1 ← dropLit "Action=".data rest
      let run := r1.takeWhile isAlphaChar
      if run.isEmpty then none else return run
    else none

/-- Leftmost match of the `Action=` query-parameter pattern. -/
def findActionParam : List Char → Option (List Char)
  | [] => none
  | c :: cs =>
    match matchActionParamAt (c :: cs) with
    | some m => some m
    | none => findActionParam cs

/-- Match `operation[:\s=]+([A-Za-z]+)/i` at the head. -/
def matchOpLabelAt (cs : List Char) : Option (List Char) := do
  let r1 ← dropLitCI "operation".data cs
  let seps := r1.takeWhile fun c => c = ':' || c = '=' || isWsChar c
  if seps.isEmpty then none
  else
    let run := (r1.drop seps.length).takeWhile isAlphaChar
    if run.isEmpty then none else return run

/-- Leftmost match of the `operation:` label pattern. -/
def findOpLabel : List Char → Option (List Char)
  | [] => none
  | c :: cs =>
    match matchOpLabelAt (c :: cs) with
    | some m => some m
    | none => findOpLabel cs

/-- The guard applied to each operation-pattern match: longer than two
characters and not a log-level word. -/
def opGuard (m : List Char) : Bool :=
  decide (m.length > 2) &&
    !(["INFO".data, "WARN".data, "ERROR".data, "DEBUG".data, "TRACE".data].contains m)

/-- The operation-pattern fallback chain: each pattern's first match is
considered once; a match failing the guard falls through to the next
pattern. -/
def findOperation (cs : List Char) : Option (List Char) :=
  firstSome
    (fun find =>
      match find cs with
      | some m => if opGuard m then some m else none
      | none => none)
    [findPascal false, findActionParam, findOpLabel]

/-- Match the IAM denial phrase
`Request for service '([^']*)' by principal '([^']*)' for operation '([^']*)' denied\.`
at the head, returning the three captures. -/
def matchIamAt (cs : List Char) : Option (List Char × List Char × List Char) := do
  let r1 ← dropLit "Request for service '".data cs
  let svc := r1.takeWhile (· ≠ '\'')
  let r2 ← dropLit "' by principal '".data (r1.drop svc.length)
  let pr := r2.takeWhile (· ≠ '\'')
  let r3 ← dropLit "' for operation '".data (r2.drop pr.length)
  let op := r3.takeWhile (· ≠ '\'')
  let _ ← dropLit "' denied.".data (r3.drop op.length)
  return (svc, pr, op)

/-- Leftmost match of the IAM denial phrase. -/
def findIam : List Char → Option (List Char × List Char × List Char)
  | [] => none
  | c :: cs =>
    match matchIamAt (c :: cs) with
    | some m => some m
    | none => findIam cs

/-- Match `Action '([^']*)' for '([^']*)'` at the head, returning the captures
and the total match length. -/
def matchActionForAt (cs : List Char) : Option (List Char × List Char × Nat) := do
  let r1 ← dropLit "Action '".data cs
  let a := r1.takeWhile (· ≠ '\'')
  let r2 ← dropLit "' for '".data (r1.drop a.length)
  let r := r2.takeWhile (· ≠ '\'')
  let _ ← dropLit ['\''] (r2.drop r.length)
  return (a, r, 8 + a.length + 7 + r.length + 1)

/-- All matches of the global `Action '..' for '..'` scan, left to right and
non-overlapping, as produced by repeated `exec`. -/
def actionForScan : Nat → List Char → List (List Char × List Char)
  | 0, _ => []
  | _ + 1, [] => []
  | fuel + 1, c :: cs =>
    match matchActionForAt (c :: cs) with
    | some (a, r, len) => (a, r) :: actionForScan fuel ((c :: cs).drop len)
    | none => actionForScan fuel cs

/-- All `Action '..' for '..'` matches of a line. -/
def findActionForAll (cs : List Char) : List (List Char × List Char) :=
  actionForScan cs.length cs

/-- Replace the first occurrence of a plain substring (JS
`String.prototype.replace` with a string argument), scanning part. -/
def replaceSubOnceAux (sub repl : List Char) : List Char → List Char
  | [] => []
  | c :: cs =>
    if sub.isPrefixOf (c :: cs) then repl ++ (c :: cs).drop sub.length
    else c :: replaceSubOnceAux sub repl cs

/-- Replace the first occurrence of a plain substring. -/
def replaceSubOnce (sub repl cs : List Char) : List Char :=
  if sub.isEmpty then repl ++ cs else replaceSubOnceAux sub repl cs

/-- Replace the first match of `` `\s+${level}\s+` `` by a single space: the
level token must close a maximal whitespace run and be followed by
whitespace; the match spans both whitespace runs. -/
def replaceLevelOnce (lvl : List Char) : List Char → List Char
  | [] => []
  | c :: cs =>
    if isWsChar c then
      match dropLit lvl ((c :: cs).dropWhile isWsChar) with
      | some (d :: rest) =>
        if isWsChar d then ' ' :: (d :: rest).dropWhile isWsChar
        else c :: replaceLevelOnce lvl cs
      | _ => c :: replaceLevelOnce lvl cs
    else c :: replaceLevelOnce lvl cs

/-- Strip the anchored prefix `^[:\-\s]*`. -/
def stripLeadPunct (cs : List Char) : List Char :=
  cs.dropWhile fun c => c = ':' || c = '-' || isWsChar c

/-- Strip the anchored prefix `^\[.*?\]\s*` (the dot does not cross a
newline). -/
def stripBracketTag (cs : List Char) : List Char :=
  match cs with
  | '[' :: rest =>
    let content := rest.takeWhile fun c => c ≠ ']' && c ≠ '\n'
    if (rest.drop content.length).head? = some ']' then
      (rest.drop (content.length + 1)).dropWhile isWsChar
    else cs
  | _ => cs

/-! ### The `parseLogLine` pipeline, one definition per source step. -/

/-- Step 1: extract the timestamp. -/
def applyTimestamp (line : String) (e : LogEntry) : LogEntry :=
  match findTs line.data with
  | some m => { e with timestamp := some ⟨m⟩ }
  | none => e

/-- Step 2: extract the level and derive `isError`/`isWarning`. -/
def applyLevel (line : String) (e : LogEntry) : LogEntry :=
  match findLevel line.data with
  | some t =>
    { e with level := some ⟨t⟩,
             isError := ["ERROR".data, "FATAL".data].contains t,
             isWarning := ["WARN".data, "WARNING".data].contains t }
  | none => e

/-- Step 3: the LocalStack API pattern, rewriting the message when a
parenthesised detail is present. -/
def applyApi (line : String) (e : LogEntry) : LogEntry :=
  match findApi line.data with
  | some (svc, op, digits, detail) =>
    let n := natOfDigits digits
    { e with isApiCall := true,
             service := some (lowerStr ⟨svc⟩),
             operation := some ⟨op⟩,
             statusCode := some n,
             isError := e.isError || decide (n ≥ 400),
             message :=
               match detail with
               | some d =>
                 String.mk op ++ " failed: " ++ String.mk d ++ " (" ++ toString n ++ ")"
               | none => e.message }
  | none => e

/-- Step 4: the fallback API patterns, tried only when step 3 did not match;
the second pattern's `parseInt` of the textual reason is `NaN`, so it sets
only `isApiCall`. -/
def applyFallback (line : String) (e : LogEntry) : LogEntry :=
  if e.isApiCall then e
  else
    match findHttp line.data with
    | some digits =>
      let n := natOfDigits digits
      { e with isApiCall := true, statusCode := some n,
               isError := e.isError || decide (n ≥ 400) }
    | none =>
      match findReason line.data with
      | some _ => { e with isApiCall := true }
      | none => e

/-- The transform `match[1].toLowerCase().replace(/_/g, "")` applied to a
service capture. -/
def svcClean (m : List Char) : String :=
  ⟨(m.map Char.toLower).filter (· ≠ '_')⟩

/-- Step 5: the service-name fallback chain, tried only when unset. -/
def applyService (line : String) (e : LogEntry) : LogEntry :=
  if truthyS e.service then e
  else
    match firstSome (fun find => find line.data) [findSvcDot, findSvcReq, findSvcWord false] with
    | some m => { e with service := some (svcClean m) }
    | none => e

/-- Step 6: the operation-name fallback chain, tried only when unset. -/
def applyOperation (line : String) (e : LogEntry) : LogEntry :=
  if truthyS e.operation then e
  else
    match findOperation line.data with
    | some m => { e with operation := some ⟨m⟩ }
    | none => e

/-- Step 7: a parsed status ≥ 400 forces `isError`. -/
def applyStatusUpgrade (e : LogEntry) : LogEntry :=
  if truthyN e.statusCode && decide (e.statusCode.getD 0 ≥ 400) then
    { e with isError := true }
  else e

/-- Step 8: the IAM denial phrase. -/
def applyIamDenial (line : String) (e : LogEntry) : LogEntry :=
  match findIam line.data with
  | some (svc, _pr, op) =>
    { e with isIamDenial := true,
             service := some (lowerStr ⟨svc⟩),
             iamPrincipal := some ⟨_pr⟩,
             iamAction := some (lowerStr ⟨svc⟩ ++ ":" ++ String.mk op),
             isError := true }
  | none => e

/-- Step 9: the global `Action '..' for '..'` scan; the last match wins. -/
def applyActionFor (line : String) (e : LogEntry) : LogEntry :=
  (findActionForAll line.data).foldl
    (fun acc m => { acc with iamAction := some ⟨m.1⟩, iamResource := some ⟨m.2⟩ })
    e

/-- Step 10: the cleaned message, falling back to the full line when cleaning
collapses to empty or changes nothing. -/
def cleanedMessage (line : String) (e : LogEntry) : String :=
  let m0 := line.data
  let m1 :=
    if truthyS e.timestamp then
      (jsTrim ⟨replaceSubOnce (e.timestamp.getD "").data [] m0⟩).data
    else m0
  let m2 :=
    if truthyS e.level then (jsTrim ⟨replaceLevelOnce (e.level.getD "").data m1⟩).data
    else m1
  let m3 := (jsTrim ⟨stripLeadPunct m2⟩).data
  let m4 := (jsTrim ⟨stripBracketTag m3⟩).data
  if m4.isEmpty || m4 = line.data then line else ⟨m4⟩

/-- Step 10 as an entry update. -/
def applyCleanup (line : String) (e : LogEntry) : LogEntry :=
  { e with message := cleanedMessage line e }

/-- `parseLogLine` from `lib/logs/log-retriever.ts`. -/
def parseLogLine (line : String) : LogEntry :=
  applyCleanup line
    (applyActionFor line
      (applyIamDenial line
        (applyStatusUpgrade
          (applyOperation line
            (applyService line
              (applyFallback line
                (applyApi line
                  (applyLevel line
                    (applyTimestamp line
                      { message := line, fullLine := line })))))))))

/-! ### `retrieveLogs`: post-processing of the command outcome. -/

/-- The resolved-path body of `retrieveLogs` applied to the `CommandResult`
produced by `runCommand` (which always resolves, never rejects): the
`cmd.error` field is never inspected. -/
def retrieveLogs (cmd : CommandResult) (filter : Option String) : LogRetrievalResult :=
  if cmd.stdout = "" && cmd.stderr ≠ "" then
    { success := false, logs := [], totalLines := 0,
      errorMessage := some ("Failed to retrieve logs: " ++ cmd.stderr) }
  else
    let rawLines := (jsSplitLines cmd.stdout).filter fun l => jsTrim l ≠ ""
    let filteredLines :=
      match filter with
      | some f =>
        if f ≠ "" then rawLines.filter fun l => strIncludes (lowerStr l) (lowerStr f)
        else rawLines
      | none => rawLines
    { success := true,
      logs := filteredLines.map parseLogLine,
      totalLines := rawLines.length,
      filteredLines :=
        match filter with
        | some f => if f ≠ "" then some filteredLines.length else none
        | none => none }

/-- The `catch`-block classifier of `retrieveLogs` (reachable only for a
thrown exception, not for a resolved `CommandResult`). -/
def classifyRetrieveError (errorMessage : String) : String :=
  if strIncludes errorMessage "timeout" then
    "Log retrieval timed out. LocalStack may be generating large amounts of logs. Try reducing the number of lines or check if LocalStack is experiencing issues."
  else if strIncludes errorMessage "Command failed" || strIncludes errorMessage "not found" then
    "Unable to execute 'localstack logs' command. Please ensure LocalStack CLI is installed and LocalStack is running."
  else
    "Failed to retrieve logs: " ++ errorMessage

/-! ## `groupLogsByError` and its volatile-substring normalization. -/

/-- Word-boundary test between characters `cs[L-1]` and `cs[L]` (end of string
counts as non-word). -/
def boundaryAfter (cs : List Char) (L : Nat) : Bool :=
  match cs.get? (L - 1), cs.get? L with
  | some a, some b => isWordChar a != isWordChar b
  | some a, none => isWordChar a
  | _, _ => false

/-- Greedy backtracking of `[a-fA-F0-9-]{8,}\b`: the largest length in
`[8, run]` whose end sits on a word boundary. -/
def pickLen (cs : List Char) : Nat → Option Nat
  | 0 => none
  | L + 1 =>
    if L + 1 < 8 then none
    else if boundaryAfter cs (L + 1) then some (L + 1)
    else pickLen cs L

/-- Attempt `\b[a-fA-F0-9-]{8,}\b` at the head; on success, the consumed
length and the replacement `[ID]`. -/
def tryIdMatch (prevW : Bool) (cs : List Char) : Option (Nat × List Char) :=
  match cs with
  | [] => none
  | c :: _ =>
    if prevW = isWordChar c then none
    else if (cs.takeWhile isIdClass).length < 8 then none
    else (pickLen cs (cs.takeWhile isIdClass).length).map fun L => (L, "[ID]".data)

/-- Attempt `\b\d{4}-\d{2}-\d{2}T\d{2}:\d{2}:\d{2}\.\d{3}\b` at the head. -/
def tryTsMatch (prevW : Bool) (cs : List Char) : Option (Nat × List Char) :=
  if prevW then none
  else
    match matchTsAt cs with
    | some (m, rest) =>
      match rest.head? with
      | some b => if isWordChar b then none else some (m.length, "[TIMESTAMP]".data)
      | none => some (m.length, "[TIMESTAMP]".data)
    | none => none

/-- Attempt `\b\d+\.\d+\.\d+\.\d+\b` at the head. -/
def tryIpMatch (prevW : Bool) (cs : List Char) : Option (Nat × List Char) :=
  if prevW then none
  else
    let r1 := cs.takeWhile Char.isDigit
    if r1.isEmpty then none
    else
      match dropLit ['.'] (cs.drop r1.length) with
      | none => none
      | some c1 =>
        let r2 := c1.takeWhile Char.isDigit
        if r2.isEmpty then none
        else
          match dropLit ['.'] (c1.drop r2.length) with
          | none => none
          | some c2 =>
            let r3 := c2.takeWhile Char.isDigit
            if r3.isEmpty then none
            else
              match dropLit ['.'] (c2.drop r3.length) with
              | none => none
              | some c3 =>
                let r4 := c3.takeWhile Char.isDigit
                if r4.isEmpty then none
                else
                  let len := r1.length + 1 + r2.length + 1 + r3.length + 1 + r4.length
                  match (c3.drop r4.length).head? with
                  | some b => if isWordChar b then none else some (len, "[IP]".data)
                  | none => some (len, "[IP]".data)

/-- Attempt `\bport\s+\d+\b` at the head (replacement `port [PORT]`). -/
def tryPortMatch (prevW : Bool) (cs : List Char) : Option (Nat × List Char) :=
  if prevW then none
  else
    match dropLit "port".data cs with
    | none => none
    | some r1 =>
      match r1 with
      | [] => none
      | w :: _ =>
        if !isWsChar w then none
        else
          let ws := r1.takeWhile isWsChar
          let ds := (r1.drop ws.length).takeWhile Char.isDigit
          if ds.isEmpty then none
          else
            let len := 4 + ws.length + ds.length
            match ((r1.drop ws.length).drop ds.length).head? with
            | some b => if isWordChar b then none else some (len, "port [PORT]".data)
            | none => some (len, "port [PORT]".data)

/-- Attempt `\b\d{3,}\b` at the head. -/
def tryNumMatch (prevW : Bool) (cs : List Char) : Option (Nat × List Char) :=
  if prevW then none
  else
    let ds := cs.takeWhile Char.isDigit
    if ds.length < 3 then none
    else
      match (cs.drop ds.length).head? with
      | some b => if isWordChar b then none else some (ds.length, "[NUMBER]".data)
      | none => some (ds.length, "[NUMBER]".data)

/-- Fuel-indexed global-replace scanner: at each position, `probe` either
matches (consuming its length, emitting its replacement) or the character is
copied; the word status of the previous original character is threaded for
`\b`. -/
def replScanF (probe : Bool → List Char → Option (Nat × List Char)) :
    Nat → Bool → List Char → List Char
  | 0, _, cs => cs
  | _ + 1, _, [] => []
  | fuel + 1, prevW, c :: cs =>
    match probe prevW (c :: cs) with
    | some (L, repl) =>
      let lastW :=
        match ((c :: cs).take L).getLast? with
        | some a => isWordChar a
        | none => prevW
      repl ++ replScanF probe fuel lastW ((c :: cs).drop L)
    | none => c :: replScanF probe fuel (isWordChar c) cs

/-- One global replacement pass. -/
def replScan (probe : Bool → List Char → Option (Nat × List Char))
    (cs : List Char) : List Char :=
  replScanF probe cs.length false cs

/-- The five normalization passes of `groupLogsByError`, in source order. -/
def normalizeMsg (s : String) : String :=
  ⟨replScan tryNumMatch
    (replScan tryPortMatch
      (replScan tryIpMatch
        (replScan tryTsMatch
          (replScan tryIdMatch s.data))))⟩

/-- The group key of one entry: the exact API triple when available,
otherwise the normalized message. -/
def groupKey (e : LogEntry) : String :=
  if e.isApiCall && truthyS e.service && truthyS e.operation && truthyN e.statusCode then
    e.service.getD "" ++ "." ++ e.operation.getD "" ++ " => " ++
      toString (e.statusCode.getD 0)
  else normalizeMsg e.message

/-- Append an entry to its group in an insertion-ordered map. -/
def addToGroup (gs : List (String × List LogEntry)) (k : String) (e : LogEntry) :
    List (String × List LogEntry) :=
  match gs with
  | [] => [(k, [e])]
  | (k', l) :: rest =>
    if k' = k then (k', l ++ [e]) :: rest
    else (k', l) :: addToGroup rest k e

/-- `groupLogsByError` from `lib/logs/log-retriever.ts`. -/
def groupLogsByError (logs : List LogEntry) : List (String × List LogEntry) :=
  logs.foldl
    (fun gs log =>
      if log.isError || log.isWarning then addToGroup gs (groupKey log) log
      else gs)
    []

/-! ## `analyzeApiCalls`. -/

/-- The statistics record returned by `analyzeApiCalls`. -/
structure ApiCallStats where
  totalCalls : Nat
  successfulCalls : Nat
  failedCalls : Nat
  callsByService : List (String × Nat)
  callsByOperation : List (String × Nat)
  callsByStatus : List (Nat × Nat)
  failedCallDetails : List LogEntry
  deriving Repr, DecidableEq

/-- `map.set(k, (map.get(k) || 0) + 1)` on an insertion-ordered map. -/
def bumpCount [DecidableEq α] (m : List (α × Nat)) (k : α) : List (α × Nat) :=
  match m with
  | [] => [(k, 1)]
  | (k', n) :: rest =>
    if k' = k then (k', n + 1) :: rest
    else (k', n) :: bumpCount rest k

/-- The loop body of `analyzeApiCalls` for one API-call entry. -/
def apiStep (acc : ApiCallStats) (log : LogEntry) : ApiCallStats :=
  let a1 :=
    if truthyS log.service then
      { acc with callsByService := bumpCount acc.callsByService (log.service.getD "") }
    else acc
  let a2 :=
    if truthyS log.operation then
      { a1 with callsByOperation := bumpCount a1.callsByOperation (log.operation.getD "") }
    else a1
  if truthyN log.statusCode then
    let a3 := { a2 with callsByStatus := bumpCount a2.callsByStatus (log.statusCode.getD 0) }
    if decide (log.statusCode.getD 0 ≥ 400) then
      { a3 with failedCalls := a3.failedCalls + 1,
                failedCallDetails := a3.failedCallDetails ++ [log] }
    else { a3 with successfulCalls := a3.successfulCalls + 1 }
  else a2

/-- `analyzeApiCalls` from `lib/logs/log-retriever.ts`. -/
def analyzeApiCalls (logs : List LogEntry) : ApiCallStats :=
  let apiLogs := logs.filter fun log => log.isApiCall
  apiLogs.foldl apiStep
    { totalCalls := apiLogs.length, successfulCalls := 0, failedCalls := 0,
      callsByService := [], callsByOperation := [], callsByStatus := [],
      failedCallDetails := [] }

/-- Boolean check that a string list is ascending for the code-unit order. -/
def sortedLe : List String → Bool
  | [] => true
  | [_] => true
  | x :: y :: rest => decide (x ≤ y) && sortedLe (y :: rest)

/-- A separator character for the UUID-invariance statement: neither a word
character nor in the volatile-ID class. -/
def isSepChar (c : Char) : Bool :=
  !isWordChar c && !isIdClass c

/-- The message of the last `spawnError` event of a list, if any. -/
def lastSpawnMsg : List RunEvent → Option String
  | [] => none
  | RunEvent.spawnError m :: rest =>
    match lastSpawnMsg rest with
    | some m' => some m'
    | none => some m
  | _ :: rest => lastSpawnMsg rest

/-- Proof invariant for the `runCommand` closure state: `killed` tracks the
kill flags, and `error` is classified by which kill (if any) fired, with `e0`
the error value frozen before any chunk/timeout event. -/
def RunInv (t b : Nat) (e0 : Option String) (s : RunState) : Prop :=
  s.killed = (s.timedOut || s.bufferExceeded) ∧
  (s.bufferExceeded = true →
    s.error = some (maxBufMsg "stdout" b) ∨ s.error = some (maxBufMsg "stderr" b)) ∧
  (s.timedOut = true → s.bufferExceeded = false → s.error = some (timeoutMsg t)) ∧
  (s.timedOut = false → s.bufferExceeded = false → s.error = e0)

/-! ## Theorems. -/

theorem apiStep_total (acc : ApiCallStats) (log : LogEntry) :
    (apiStep acc log).totalCalls = acc.totalCalls := by
  simp only [apiStep]
  split <;> split <;> split <;> simp_all <;> split <;> simp_all

theorem apiStep_succ (acc : ApiCallStats) (log : LogEntry) :
    (apiStep acc log).successfulCalls =
      acc.successfulCalls +
        (if truthyN log.statusCode && decide (log.statusCode.getD 0 < 400) then 1 else 0) := by
  simp only [apiStep]
  split <;> split <;> split <;> simp_all <;> split <;> simp_all

theorem apiStep_fail (acc : ApiCallStats) (log : LogEntry) :
    (apiStep acc log).failedCalls =
      acc.failedCalls +
        (if truthyN log.statusCode && decide (log.statusCode.getD 0 ≥ 400) then 1 else 0) := by
  simp only [apiStep]
  split <;> split <;> split <;> simp_all <;> split <;> simp_all

theorem apiFold_total (l : List LogEntry) (acc : ApiCallStats) :
    (l.foldl apiStep acc).totalCalls = acc.totalCalls := by
  induction l generalizing acc with
  | nil => rfl
  | cons a l ih => simp [List.foldl_cons, ih, apiStep_total]

theorem apiFold_succ (l : List LogEntry) (acc : ApiCallStats) :
    (l.foldl apiStep acc).successfulCalls =
      acc.successfulCalls +
        l.countP (fun e => truthyN e.statusCode && decide (e.statusCode.getD 0 < 400)) := by
  induction l generalizing acc with
  | nil => simp
  | cons a l ih =>
    simp [List.foldl_cons, ih, apiStep_succ, List.countP_cons]
    split <;> omega

theorem apiFold_fail (l : List LogEntry) (acc : ApiCallStats) :
    (l.foldl apiStep acc).failedCalls =
      acc.failedCalls +
        l.countP (fun e => truthyN e.statusCode && decide (e.statusCode.getD 0 ≥ 400)) := by
  induction l generalizing acc with
  | nil => simp
  | cons a l ih =>
    simp [List.foldl_cons, ih, apiStep_fail, List.countP_cons]
    split <;> omega

theorem countP_disjoint_le (l : List α) (p q r : α → Bool)
    (hp : ∀ a, p a = true → r a = true) (hq : ∀ a, q a = true → r a = true)
    (hpq : ∀ a, ¬(p a = true ∧ q a = true)) :
    l.countP p + l.countP q ≤ l.countP r := by
  induction l with
  | nil => simp
  | cons a l ih =>
    simp only [List.countP_cons]
    rcases hap : p a <;> rcases haq : q a <;> rcases har : r a <;>
      simp_all <;> omega

/-- Claim C8 (amended): `analyzeApiCalls` reports `totalCalls` equal to the
number of entries with `isApiCall`; an entry counts as failed iff it carries a
truthy (non-zero) status code ≥ 400 and successful iff it carries a truthy
status code < 400, entries without a truthy status code counting in neither
tally; hence `successfulCalls + failedCalls ≤ totalCalls`. -/
theorem analyzeApiCalls_counts (logs : List LogEntry) :
    (analyzeApiCalls logs).totalCalls = logs.countP (fun e => e.isApiCall) ∧
    (analyzeApiCalls logs).successfulCalls =
      logs.countP (fun e =>
        e.isApiCall && truthyN e.statusCode && decide (e.statusCode.getD 0 < 400)) ∧
    (analyzeApiCalls logs).failedCalls =
      logs.countP (fun e =>
        e.isApiCall && truthyN e.statusCode && decide (e.statusCode.getD 0 ≥ 400)) ∧
    (analyzeApiCalls logs).successfulCalls + (analyzeApiCalls logs).failedCalls ≤
      (analyzeApiCalls logs).totalCalls := by
  have htot : (analyzeApiCalls logs).totalCalls = logs.countP (fun e => e.isApiCall) := by
    simp [analyzeApiCalls, apiFold_total, List.countP_eq_length_filter]
  have hsucc : (analyzeApiCalls logs).successfulCalls =
      logs.countP (fun e =>
        e.isApiCall && truthyN e.statusCode && decide (e.statusCode.getD 0 < 400)) := by
    simp only [analyzeApiCalls, apiFold_succ, Nat.zero_add, List.countP_filter]
    congr 1
    funext e
    rcases e.isApiCall <;> simp
  have hfail : (analyzeApiCalls logs).failedCalls =
      logs.countP (fun e =>
        e.isApiCall && truthyN e.statusCode && decide (e.statusCode.getD 0 ≥ 400)) := by
    simp only [analyzeApiCalls, apiFold_fail, Nat.zero_add, List.countP_filter]
    congr 1
    funext e
    rcases e.isApiCall <;> simp
  refine ⟨htot, hsucc, hfail, ?_⟩
  rw [htot, hsucc, hfail]
  refine countP_disjoint_le _ _ _ _ ?_ ?_ ?_
  · intro a h
    simp_all
  · intro a h
    simp_all
  · intro a ⟨h1, h2⟩
    simp_all
    omega

/-- Claim C8 counterexample to the claim as stated: an API entry with
`statusCode = 0` has a status code below 400 yet is counted as neither
successful nor failed (JS truthiness excludes it). -/
theorem analyzeApiCalls_zero_status_cex :
    (({ isApiCall := true, statusCode := some 0 } : LogEntry).statusCode = some 0 ∧
      (0 : Nat) < 400) ∧
    (analyzeApiCalls [{ isApiCall := true, statusCode := some 0 }]).totalCalls = 1 ∧
    (analyzeApiCalls [{ isApiCall := true, statusCode := some 0 }]).successfulCalls = 0 ∧
    (analyzeApiCalls [{ isApiCall := true, statusCode := some 0 }]).failedCalls = 0 := by
  decide

theorem mem_keys_insertIfAbsent (m : List (String × UniquePermission))
    (k : String) (v : UniquePermission) (k' : String) :
    k' ∈ (insertIfAbsent m k v).map Prod.fst ↔
      k' ∈ m.map Prod.fst ∨ k' = k := by
  unfold insertIfAbsent
  split
  · rename_i h
    rw [List.any_eq_true] at h
    obtain ⟨e, hem, hek⟩ := h
    constructor
    · intro hk
      exact Or.inl hk
    · rintro (hk | rfl)
      · exact hk
      · exact List.mem_map.mpr ⟨e, hem, of_decide_eq_true hek⟩
  · simp [List.map_append]

theorem insertIfAbsent_inv (P : String × UniquePermission → Prop)
    (m : List (String × UniquePermission)) (k : String) (v : UniquePermission)
    (hm : ∀ kv ∈ m, P kv) (hv : P (k, v)) :
    ∀ kv ∈ insertIfAbsent m k v, P kv := by
  intro kv hkv
  unfold insertIfAbsent at hkv
  split at hkv
  · exact hm kv hkv
  · rcases List.mem_append.mp hkv with h | h
    · exact hm kv h
    · simp at h
      subst h
      exact hv

theorem dedupStep_inv (P : String × UniquePermission → Prop)
    (m : List (String × UniquePermission)) (d : LogEntry)
    (hm : ∀ kv ∈ m, P kv)
    (hd : truthyS d.iamPrincipal = true → truthyS d.iamAction = true → P (keyOf d, permOf d)) :
    ∀ kv ∈ dedupStep m d, P kv := by
  unfold dedupStep
  split
  · exact hm
  · rename_i h
    rw [Bool.not_eq_true, Bool.or_eq_false_iff] at h
    obtain ⟨h1, h2⟩ := h
    rw [Bool.not_eq_false'] at h1 h2
    exact insertIfAbsent_inv P m _ _ hm (hd h1 h2)

theorem dedupFold_inv (P : String × UniquePermission → Prop)
    (ds : List LogEntry) (m : List (String × UniquePermission))
    (hm : ∀ kv ∈ m, P kv)
    (hd : ∀ d ∈ ds, truthyS d.iamPrincipal = true → truthyS d.iamAction = true →
      P (keyOf d, permOf d)) :
    ∀ kv ∈ ds.foldl dedupStep m, P kv := by
  induction ds generalizing m with
  | nil => exact hm
  | cons d ds ih =>
    simp only [List.foldl_cons]
    exact ih _ (dedupStep_inv P m d hm (hd d (by simp)))
      (fun d' hd' => hd d' (by simp [hd']))

theorem mem_keys_dedupFold (ds : List LogEntry)
    (m : List (String × UniquePermission)) (k : String) :
    k ∈ (ds.foldl dedupStep m).map Prod.fst ↔
      k ∈ m.map Prod.fst ∨
        ∃ d ∈ ds, truthyS d.iamPrincipal = true ∧ truthyS d.iamAction = true ∧
          k = keyOf d := by
  induction ds generalizing m with
  | nil => simp
  | cons d ds ih =>
    simp only [List.foldl_cons]
    rw [ih]
    unfold dedupStep
    split
    · rename_i h
      rw [Bool.or_eq_true_iff] at h
      constructor
      · rintro (hk | hk)
        · exact Or.inl hk
        · exact Or.inr (by simp; right; exact hk)
      · rintro (hk | hk)
        · exact Or.inl hk
        · simp at hk
          rcases hk with ⟨hp, ha, hkk⟩ | hk
          · rcases h with h | h <;> simp_all
          · exact Or.inr hk
    · rename_i h
      rw [Bool.not_eq_true, Bool.or_eq_false_iff] at h
      obtain ⟨h1, h2⟩ := h
      rw [Bool.not_eq_false'] at h1 h2
      rw [mem_keys_insertIfAbsent]
      constructor
      · rintro ((hk | rfl) | hk)
        · exact Or.inl hk
        · exact Or.inr (by simp [h1, h2])
        · exact Or.inr (by simp; right; exact hk)
      · rintro (hk | hk)
        · exact Or.inl (Or.inl hk)
        · simp at hk
          rcases hk with ⟨hp, ha, rfl⟩ | hk
          · exact Or.inl (Or.inr rfl)
          · exact Or.inr hk

/-- Claim C10: every key of `deduplicatePermissions` is
`"<principal>|<action>|<resource>"` of its own value, all value fields are
non-empty (`"*"` standing in for a missing resource), and the key set is
invariant under permutation of the input denial list. -/
theorem deduplicatePermissions_key_invariants (ds1 ds2 : List LogEntry)
    (hperm : ds1.Perm ds2) :
    (∀ kv ∈ deduplicatePermissions ds1,
      kv.1 = dedupKey kv.2.principal kv.2.action kv.2.resource ∧
        kv.2.principal ≠ "" ∧ kv.2.action ≠ "" ∧ kv.2.resource ≠ "") ∧
    (∀ k, k ∈ (deduplicatePermissions ds1).map Prod.fst ↔
      k ∈ (deduplicatePermissions ds2).map Prod.fst) := by
  constructor
  · unfold deduplicatePermissions
    refine dedupFold_inv
      (fun kv => kv.1 = dedupKey kv.2.principal kv.2.action kv.2.resource ∧
        kv.2.principal ≠ "" ∧ kv.2.action ≠ "" ∧ kv.2.resource ≠ "")
      ds1 [] (by simp) ?_
    intro d _hd h1 h2
    refine ⟨rfl, ?_, ?_, ?_⟩
    · revert h1
      unfold truthyS permOf
      rcases d.iamPrincipal <;> simp
    · revert h2
      unfold truthyS permOf
      rcases d.iamAction <;> simp
    · unfold permOf resourceOf
      rcases d.iamResource with _ | r
      · simp
      · by_cases hr : r = "" <;> simp [hr]
  · intro k
    unfold deduplicatePermissions
    rw [mem_keys_dedupFold, mem_keys_dedupFold]
    simp only [List.map_nil, List.not_mem_nil, false_or]
    constructor
    · rintro ⟨d, hd, h⟩
      exact ⟨d, hperm.mem_iff.mp hd, h⟩
    · rintro ⟨d, hd, h⟩
      exact ⟨d, hperm.mem_iff.mpr hd, h⟩

/-- Witness for C10 at a concrete pair of reordered denial lists. -/
theorem deduplicatePermissions_key_invariants_witness :
    (∀ kv ∈ deduplicatePermissions
        [{ iamPrincipal := some "p1", iamAction := some "s3:GetObject" },
         { iamPrincipal := some "p2", iamAction := some "sqs:SendMessage",
           iamResource := some "arn:q" }],
      kv.1 = dedupKey kv.2.principal kv.2.action kv.2.resource ∧
        kv.2.principal ≠ "" ∧ kv.2.action ≠ "" ∧ kv.2.resource ≠ "") ∧
    (∀ k, k ∈ (deduplicatePermissions
        [{ iamPrincipal := some "p1", iamAction := some "s3:GetObject" },
         { iamPrincipal := some "p2", iamAction := some "sqs:SendMessage",
           iamResource := some "arn:q" }]).map Prod.fst ↔
      k ∈ (deduplicatePermissions
        [{ iamPrincipal := some "p2", iamAction := some "sqs:SendMessage",
           iamResource := some "arn:q" },
         { iamPrincipal := some "p1", iamAction := some "s3:GetObject" }]).map Prod.fst) :=
  deduplicatePermissions_key_invariants
    [{ iamPrincipal := some "p1", iamAction := some "s3:GetObject" },
     { iamPrincipal := some "p2", iamAction := some "sqs:SendMessage",
       iamResource := some "arn:q" }]
    [{ iamPrincipal := some "p2", iamAction := some "sqs:SendMessage",
       iamResource := some "arn:q" },
     { iamPrincipal := some "p1", iamAction := some "s3:GetObject" }]
    (List.Perm.swap _ _ _)

theorem insSorted_eq_orderedInsert (x : String) (l : List String) :
    insSorted x l = List.orderedInsert (· ≤ ·) x l := by
  induction l with
  | nil => rfl
  | cons y ys ih =>
    unfold insSorted List.orderedInsert
    rw [ih]

theorem sortActions_eq_insertionSort (l : List String) :
    sortActions l = List.insertionSort (· ≤ ·) l := by
  induction l with
  | nil => rfl
  | cons x xs ih =>
    show insSorted x (sortActions xs) = List.insertionSort (· ≤ ·) (x :: xs)
    rw [ih, insSorted_eq_orderedInsert, List.insertionSort]

theorem sortedLe_of_sorted (l : List String) (h : l.Sorted (· ≤ ·)) :
    sortedLe l = true := by
  induction l with
  | nil => rfl
  | cons x xs ih =>
    rcases xs with _ | ⟨y, ys⟩
    · rfl
    · rw [List.sorted_cons] at h
      unfold sortedLe
      rw [Bool.and_eq_true, decide_eq_true_iff]
      exact ⟨h.1 y (by simp), ih h.2⟩

theorem sortActions_sortedLe (l : List String) : sortedLe (sortActions l) = true := by
  rw [sortActions_eq_insertionSort]
  exact sortedLe_of_sorted _ (List.sorted_insertionSort _ l)

theorem sortActions_nodup (l : List String) (h : l.Nodup) : (sortActions l).Nodup := by
  rw [sortActions_eq_insertionSort]
  exact (List.perm_insertionSort (· ≤ ·) l).symm.nodup h

theorem addAction_nodup (m : List (String × List String)) (r a : String)
    (hm : ∀ e ∈ m, e.2.Nodup) : ∀ e ∈ addAction m r a, e.2.Nodup := by
  induction m with
  | nil =>
    intro e he
    unfold addAction at he
    simp at he
    simp [he]
  | cons p rest ih =>
    intro e he
    obtain ⟨r', as⟩ := p
    unfold addAction at he
    split at he
    · rw [List.mem_cons] at he
      rcases he with he | he
      · subst he
        split
        · exact hm (r', as) (by simp)
        · rename_i hmem
          simp only [List.nodup_append, List.nodup_cons, List.nodup_nil]
          exact ⟨hm (r', as) (by simp), by simp, by simpa using hmem⟩
      · exact hm e (by simp [he])
    · rw [List.mem_cons] at he
      rcases he with he | he
      · subst he
        exact hm (r', as) (by simp)
      · exact ih (fun e' he' => hm e' (by simp [he'])) e he

theorem buildResourceMap_nodup (perms : List UniquePermission) :
    ∀ e ∈ buildResourceMap perms, e.2.Nodup := by
  unfold buildResourceMap
  suffices h : ∀ (m : List (String × List String)), (∀ e ∈ m, e.2.Nodup) →
      ∀ e ∈ perms.foldl
        (fun m p => addAction m (if p.resource = "" then "*" else p.resource) p.action) m,
        e.2.Nodup by
    exact h [] (by simp)
  induction perms with
  | nil => intro m hm; exact hm
  | cons p ps ih =>
    intro m hm
    simp only [List.foldl_cons]
    exact ih _ (addAction_nodup m _ _ hm)

theorem mem_withIdx (l : List α) (i : Nat) :
    ∀ x ∈ withIdx i l, x.2 ∈ l := by
  induction l generalizing i with
  | nil => intro x hx; cases hx
  | cons a as ih =>
    intro x hx
    unfold withIdx at hx
    rw [List.mem_cons] at hx
    rcases hx with hx | hx
    · simp [hx]
    · exact List.mem_cons_of_mem a (ih (i + 1) x hx)

/-- Claim C1: for every non-empty permission map, every statement of the
`generateIamPolicy` document has no `Principal`, has `Effect: "Allow"`, and
carries the sorted deduplicated action list of one resource of the
resource map together with that resource. -/
theorem generateIamPolicy_statements_no_principal (perms : List UniquePermission)
    (_hne : perms ≠ []) :
    ∀ s ∈ (generateIamPolicy perms).Statement,
      s.Principal = none ∧ s.Effect = "Allow" ∧
      sortedLe s.Action = true ∧ s.Action.Nodup ∧
      ∃ entry ∈ buildResourceMap perms,
        s.Resource = entry.1 ∧ s.Action = sortActions entry.2 := by
  intro s hs
  unfold generateIamPolicy at hs
  simp only [List.mem_map] at hs
  obtain ⟨p, hp, rfl⟩ := hs
  refine ⟨rfl, rfl, sortActions_sortedLe _, ?_, ⟨p.2, mem_withIdx _ 0 p hp, rfl, rfl⟩⟩
  exact sortActions_nodup _ (buildResourceMap_nodup perms p.2 (mem_withIdx _ 0 p hp))

/-- Witness for C1 at a two-permission map sharing one resource. -/
theorem generateIamPolicy_statements_no_principal_witness :
    ([⟨"lambda.amazonaws.com", "s3:PutObject", "arn:aws:s3:::b/*"⟩,
      ⟨"lambda.amazonaws.com", "s3:GetObject", "arn:aws:s3:::b/*"⟩] :
        List UniquePermission) ≠ [] ∧
    ∀ s ∈ (generateIamPolicy
        [⟨"lambda.amazonaws.com", "s3:PutObject", "arn:aws:s3:::b/*"⟩,
         ⟨"lambda.amazonaws.com", "s3:GetObject", "arn:aws:s3:::b/*"⟩]).Statement,
      s.Principal = none ∧ s.Effect = "Allow" ∧
      sortedLe s.Action = true ∧ s.Action.Nodup ∧
      ∃ entry ∈ buildResourceMap
          [⟨"lambda.amazonaws.com", "s3:PutObject", "arn:aws:s3:::b/*"⟩,
           ⟨"lambda.amazonaws.com", "s3:GetObject", "arn:aws:s3:::b/*"⟩],
        s.Resource = entry.1 ∧ s.Action = sortActions entry.2 :=
  ⟨by decide,
    generateIamPolicy_statements_no_principal
      [⟨"lambda.amazonaws.com", "s3:PutObject", "arn:aws:s3:::b/*"⟩,
       ⟨"lambda.amazonaws.com", "s3:GetObject", "arn:aws:s3:::b/*"⟩]
      (by decide)⟩

theorem filter_head?_eq_find? (p : α → Bool) (l : List α) :
    (l.filter p).head? = l.find? p := by
  induction l with
  | nil => rfl
  | cons a l ih =>
    by_cases h : p a <;> simp [List.filter_cons, List.find?_cons, h, ih]

theorem nearbyFilter_eq (getTime : String → Option Int) (hempty : getTime "" = none)
    (dts : String) (dact : Option String) (log : LogEntry) :
    nearbyFilter getTime (getTime dts) dact log =
      (decide (log.iamAction = dact) &&
        (match log.iamResource with
         | some r => decide (r ≠ "")
         | none => false) &&
        (match log.timestamp with
         | some lts =>
           match getTime lts, getTime dts with
           | some lt, some dt => decide ((lt - dt).natAbs ≤ 5000)
           | _, _ => false
         | none => false)) := by
  unfold nearbyFilter truthyS
  rcases hlt : log.timestamp with _ | lts
  · simp
  · rcases hlr : log.iamResource with _ | r
    · simp
    · by_cases hr : r = ""
      · subst hr
        simp
      · by_cases hl : lts = ""
        · subst hl
          simp [hempty, hr]
        · simp only [hr, hl, decide_not, Bool.not_eq_true', decide_eq_false_iff_not,
            Bool.not_false, Bool.or_self, Bool.false_or, if_neg, decide_eq_true_eq]
          rcases hgl : getTime lts with _ | lt <;> rcases hgd : getTime dts with _ | dt <;>
            simp [hgl, hgd, hr]

/-- Claim C4: for a denial with a set (truthy) timestamp and iamAction, if
some log entry shares its `iamAction`, carries a non-empty `iamResource`, and
has a timestamp within 5000 ms (absolute difference) of the denial's, the
enriched denial takes the `iamResource` of the first such entry in original
array order; otherwise the denial is returned unchanged.
`enrichWithResourceData` applies this to every denial.  `getTime` interprets
a timestamp string as milliseconds (`none` for an invalid date such as the
empty string). -/
theorem enrichWithResourceData_first_match
    (getTime : String → Option Int) (hempty : getTime "" = none)
    (denials allLogs : List LogEntry) (d : LogEntry)
    (ts : String) (hts : d.timestamp = some ts) (hts' : ts ≠ "")
    (act : String) (ha : d.iamAction = some act) (ha' : act ≠ "") :
    enrichWithResourceData getTime denials allLogs =
      denials.map (enrichOne getTime allLogs) ∧
    (match allLogs.find? fun log =>
        decide (log.iamAction = d.iamAction) &&
        (match log.iamResource with
         | some r => decide (r ≠ "")
         | none => false) &&
        (match log.timestamp with
         | some lts =>
           match getTime lts, getTime ts with
           | some lt, some dt => decide ((lt - dt).natAbs ≤ 5000)
           | _, _ => false
         | none => false) with
     | some m => enrichOne getTime allLogs d = { d with iamResource := m.iamResource }
     | none => enrichOne getTime allLogs d = d) := by
  refine ⟨rfl, ?_⟩
  have hguard : (truthyS d.timestamp && truthyS d.iamAction) = true := by
    rw [hts, ha]
    simp [truthyS, hts', ha']
  have hfilter :
      allLogs.filter (nearbyFilter getTime (getTime (d.timestamp.getD "")) d.iamAction) =
        allLogs.filter fun log =>
          decide (log.iamAction = d.iamAction) &&
          (match log.iamResource with
           | some r => decide (r ≠ "")
           | none => false) &&
          (match log.timestamp with
           | some lts =>
             match getTime lts, getTime ts with
             | some lt, some dt => decide ((lt - dt).natAbs ≤ 5000)
             | _, _ => false
           | none => false) := by
    apply List.filter_congr
    intro log _
    rw [hts]
    exact nearbyFilter_eq getTime hempty ts d.iamAction log
  unfold enrichOne
  rw [hguard]
  simp only [if_true]
  rw [hfilter, filter_head?_eq_find?]
  rcases allLogs.find? _ with _ | m <;> simp

/-- Witness for C4: with a two-candidate window, the first candidate in array
order (not the closer-in-time one) supplies the resource. -/
theorem enrichWithResourceData_first_match_witness :
    enrichWithResourceData
        (fun s => if s = "t1" then some (1000 : Int) else if s = "t2" then some 4000 else none)
        [{ timestamp := some "t1", iamAction := some "a" }]
        [{ timestamp := some "t2", iamAction := some "a", iamResource := some "r2" },
         { timestamp := some "t1", iamAction := some "a", iamResource := some "r3" }] =
      [{ timestamp := some "t1", iamAction := some "a" }].map
        (enrichOne
          (fun s => if s = "t1" then some (1000 : Int) else if s = "t2" then some 4000 else none)
          [{ timestamp := some "t2", iamAction := some "a", iamResource := some "r2" },
           { timestamp := some "t1", iamAction := some "a", iamResource := some "r3" }]) ∧
    (match
        ([{ timestamp := some "t2", iamAction := some "a", iamResource := some "r2" },
          { timestamp := some "t1", iamAction := some "a", iamResource := some "r3" }] :
            List LogEntry).find? fun log =>
          decide (log.iamAction =
            ({ timestamp := some "t1", iamAction := some "a" } : LogEntry).iamAction) &&
          (match log.iamResource with
           | some r => decide (r ≠ "")
           | none => false) &&
          (match log.timestamp with
           | some lts =>
             match
               (fun s => if s = "t1" then some (1000 : Int) else if s = "t2" then some 4000 else none) lts,
               (fun s => if s = "t1" then some (1000 : Int) else if s = "t2" then some 4000 else none) "t1" with
             | some lt, some dt => decide ((lt - dt).natAbs ≤ 5000)
             | _, _ => false
           | none => false) with
     | some m =>
       enrichOne
           (fun s => if s = "t1" then some (1000 : Int) else if s = "t2" then some 4000 else none)
           [{ timestamp := some "t2", iamAction := some "a", iamResource := some "r2" },
            { timestamp := some "t1", iamAction := some "a", iamResource := some "r3" }]
           { timestamp := some "t1", iamAction := some "a" } =
         { ({ timestamp := some "t1", iamAction := some "a" } : LogEntry) with
             iamResource := m.iamResource }
     | none =>
       enrichOne
           (fun s => if s = "t1" then some (1000 : Int) else if s = "t2" then some 4000 else none)
           [{ timestamp := some "t2", iamAction := some "a", iamResource := some "r2" },
            { timestamp := some "t1", iamAction := some "a", iamResource := some "r3" }]
           { timestamp := some "t1", iamAction := some "a" } =
         { timestamp := some "t1", iamAction := some "a" }) :=
  enrichWithResourceData_first_match
    (fun s => if s = "t1" then some (1000 : Int) else if s = "t2" then some 4000 else none)
    (by decide)
    [{ timestamp := some "t1", iamAction := some "a" }]
    [{ timestamp := some "t2", iamAction := some "a", iamResource := some "r2" },
     { timestamp := some "t1", iamAction := some "a", iamResource := some "r3" }]
    { timestamp := some "t1", iamAction := some "a" }
    "t1" rfl (by decide) "a" rfl (by decide)

theorem applyTimestamp_fullLine (line : String) (e : LogEntry) :
    (applyTimestamp line e).fullLine = e.fullLine := by
  unfold applyTimestamp
  split <;> rfl

theorem applyLevel_fullLine (line : String) (e : LogEntry) :
    (applyLevel line e).fullLine = e.fullLine := by
  unfold applyLevel
  split <;> rfl

theorem applyApi_fullLine (line : String) (e : LogEntry) :
    (applyApi line e).fullLine = e.fullLine := by
  unfold applyApi
  split <;> rfl

theorem applyFallback_fullLine (line : String) (e : LogEntry) :
    (applyFallback line e).fullLine = e.fullLine := by
  unfold applyFallback
  split
  · rfl
  · split
    · rfl
    · split <;> rfl

theorem applyService_fullLine (line : String) (e : LogEntry) :
    (applyService line e).fullLine = e.fullLine := by
  unfold applyService
  split
  · rfl
  · split <;> rfl

theorem applyOperation_fullLine (line : String) (e : LogEntry) :
    (applyOperation line e).fullLine = e.fullLine := by
  unfold applyOperation
  split
  · rfl
  · split <;> rfl

theorem applyStatusUpgrade_fullLine (e : LogEntry) :
    (applyStatusUpgrade e).fullLine = e.fullLine := by
  unfold applyStatusUpgrade
  split <;> rfl

theorem applyIamDenial_fullLine (line : String) (e : LogEntry) :
    (applyIamDenial line e).fullLine = e.fullLine := by
  unfold applyIamDenial
  split <;> rfl

theorem foldActionFor_fullLine (l : List (List Char × List Char)) (e : LogEntry) :
    (l.foldl (fun acc m => { acc with iamAction := some ⟨m.1⟩, iamResource := some ⟨m.2⟩ })
        e).fullLine = e.fullLine := by
  induction l generalizing e with
  | nil => rfl
  | cons a l ih => simp [List.foldl_cons, ih]

theorem applyActionFor_fullLine (line : String) (e : LogEntry) :
    (applyActionFor line e).fullLine = e.fullLine := by
  unfold applyActionFor
  exact foldActionFor_fullLine _ e

theorem parse_fullLine (line : String) : (parseLogLine line).fullLine = line := by
  unfold parseLogLine
  rw [show ∀ e : LogEntry, (applyCleanup line e).fullLine = e.fullLine from fun _ => rfl]
  rw [applyActionFor_fullLine, applyIamDenial_fullLine, applyStatusUpgrade_fullLine,
    applyOperation_fullLine, applyService_fullLine, applyFallback_fullLine,
    applyApi_fullLine, applyLevel_fullLine, applyTimestamp_fullLine]

/-- Claim C9: with a non-empty filter every returned entry's raw `fullLine`
contains the filter case-insensitively, the reported `filteredLines` count
never exceeds `totalLines`, and with no filter `filteredLines` is absent. -/
theorem retrieveLogs_filter_substring (cmd : CommandResult) (f : String) (hf : f ≠ "") :
    (∀ e ∈ (retrieveLogs cmd (some f)).logs,
      strIncludes (lowerStr e.fullLine) (lowerStr f) = true) ∧
    (∀ n, (retrieveLogs cmd (some f)).filteredLines = some n →
      n ≤ (retrieveLogs cmd (some f)).totalLines) ∧
    (retrieveLogs cmd none).filteredLines = none := by
  unfold retrieveLogs
  split
  · exact ⟨by simp, by simp, rfl⟩
  · refine ⟨?_, ?_, rfl⟩
    · intro e he
      simp only [List.mem_map] at he
      obtain ⟨l, hl, rfl⟩ := he
      rw [if_pos hf, List.mem_filter] at hl
      rw [parse_fullLine]
      exact hl.2
    · intro n hn
      simp only [ne_eq, hf, not_false_eq_true, if_true, Option.some.injEq] at hn
      subst hn
      exact List.length_filter_le _ _

/-- Witness for C9 at a concrete two-line log and filter. -/
theorem retrieveLogs_filter_substring_witness :
    (∀ e ∈ (retrieveLogs
        { stdout := "AWS s3.PutObject => 404\nhello world", stderr := "" }
        (some "PUT")).logs,
      strIncludes (lowerStr e.fullLine) (lowerStr "PUT") = true) ∧
    (∀ n, (retrieveLogs
        { stdout := "AWS s3.PutObject => 404\nhello world", stderr := "" }
        (some "PUT")).filteredLines = some n →
      n ≤ (retrieveLogs
        { stdout := "AWS s3.PutObject => 404\nhello world", stderr := "" }
        (some "PUT")).totalLines) ∧
    (retrieveLogs
        { stdout := "AWS s3.PutObject => 404\nhello world", stderr := "" }
        none).filteredLines = none :=
  retrieveLogs_filter_substring
    { stdout := "AWS s3.PutObject => 404\nhello world", stderr := "" }
    "PUT" (by decide)

theorem runCommandModel_append_nonclose (t b : Nat) (l : List RunEvent)
    (hl : ∀ e ∈ l, ∀ cd, e ≠ RunEvent.close cd) (s : RunState) (rest : List RunEvent) :
    runCommandModel t b s (l ++ rest) =
      runCommandModel t b (l.foldl (stepEvent t b) s) rest := by
  induction l generalizing s with
  | nil => rfl
  | cons e l ih =>
    rcases e with d | d | _ | m | cd
    · exact ih (fun e' he' => hl e' (by simp [he'])) _
    · exact ih (fun e' he' => hl e' (by simp [he'])) _
    · exact ih (fun e' he' => hl e' (by simp [he'])) _
    · exact ih (fun e' he' => hl e' (by simp [he'])) _
    · exact absurd rfl (hl (RunEvent.close cd) (by simp) cd)


theorem lastSpawnMsg_cons_spawn (m : String) (es : List RunEvent) :
    lastSpawnMsg (RunEvent.spawnError m :: es) =
      match lastSpawnMsg es with
      | some m' => some m'
      | none => some m := rfl

theorem foldl_spawn_state (t b : Nat) (es : List RunEvent)
    (hes : ∀ e ∈ es, ∃ m, e = RunEvent.spawnError m) (s : RunState) :
    es.foldl (stepEvent t b) s =
      { s with error := match lastSpawnMsg es with
                        | some m => some m
                        | none => s.error } := by
  induction es generalizing s with
  | nil => rfl
  | cons e es ih =>
    obtain ⟨m, rfl⟩ := hes e (by simp)
    rw [List.foldl_cons, lastSpawnMsg_cons_spawn]
    have hstep : stepEvent t b s (RunEvent.spawnError m) = { s with error := some m } := rfl
    rw [hstep, ih (fun e' he' => hes e' (by simp [he']))]
    rcases h : lastSpawnMsg es with _ | m' <;> simp [h]

theorem stepEvent_inv (t b : Nat) (e0 : Option String) (s : RunState) (e : RunEvent)
    (he : (∀ m, e ≠ RunEvent.spawnError m) ∧ ∀ cd, e ≠ RunEvent.close cd)
    (hinv : RunInv t b e0 s) : RunInv t b e0 (stepEvent t b s e) := by
  obtain ⟨h1, h2, h3, h4⟩ := hinv
  rcases e with d | d | _ | m | cd
  · simp only [stepEvent]
    split
    · exact ⟨h1, h2, h3, h4⟩
    · rename_i hflags
      rw [Bool.not_eq_true, Bool.or_eq_false_iff] at hflags
      obtain ⟨ht, hb⟩ := hflags
      split
      · unfold killProcess
        rw [if_neg (by simp [h1, ht, hb])]
        exact ⟨by simp [ht], by simp, by simp [ht], by simp⟩
      · exact ⟨by simpa using h1, by simpa using h2, by simpa using h3, by simpa using h4⟩
  · simp only [stepEvent]
    split
    · exact ⟨h1, h2, h3, h4⟩
    · rename_i hflags
      rw [Bool.not_eq_true, Bool.or_eq_false_iff] at hflags
      obtain ⟨ht, hb⟩ := hflags
      split
      · unfold killProcess
        rw [if_neg (by simp [h1, ht, hb])]
        exact ⟨by simp [ht], by simp, by simp [ht], by simp⟩
      · exact ⟨by simpa using h1, by simpa using h2, by simpa using h3, by simpa using h4⟩
  · show RunInv t b e0 (killProcess { s with timedOut := true } (timeoutMsg t))
    unfold killProcess
    by_cases hk : ({ s with timedOut := true } : RunState).killed = true
    · rw [if_pos hk]
      have hk' : s.killed = true := hk
      have hor : (s.timedOut || s.bufferExceeded) = true := by rw [← h1]; exact hk'
      refine ⟨by simp [hk'], by simpa using h2, ?_, by simp⟩
      intro _ hbf
      replace hbf : s.bufferExceeded = false := hbf
      show s.error = some (timeoutMsg t)
      rcases Bool.or_eq_true_iff.mp hor with hT | hB
      · exact h3 hT hbf
      · rw [hB] at hbf
        cases hbf
    · rw [if_neg hk]
      exact ⟨by simp, by
        have hk' : s.killed = false := by
          rw [Bool.not_eq_true] at hk
          exact hk
        have hor : (s.timedOut || s.bufferExceeded) = false := by rw [← h1]; exact hk'
        simp [(Bool.or_eq_false_iff.mp hor).2], by simp, by simp⟩
  · exact absurd rfl (he.1 m)
  · exact absurd rfl (he.2 cd)

theorem foldl_ms_inv (t b : Nat) (e0 : Option String) (ms : List RunEvent)
    (hms : ∀ e ∈ ms, (∀ m, e ≠ RunEvent.spawnError m) ∧ ∀ cd, e ≠ RunEvent.close cd)
    (s : RunState) (hinv : RunInv t b e0 s) :
    RunInv t b e0 (ms.foldl (stepEvent t b) s) := by
  induction ms generalizing s with
  | nil => exact hinv
  | cons e ms ih =>
    rw [List.foldl_cons]
    exact ih (fun e' he' => hms e' (by simp [he'])) _
      (stepEvent_inv t b e0 s e (hms e (by simp)) hinv)


/-- Claim C7: for every run whose spawn-level errors precede all output and
timer events and whose `close` event comes last, `runCommandModel` resolves
with the close code, and its `error` is classified with precedence: a
buffer-exceeded kill reports the stream's maxBuffer message, a timeout kill
reports the timed-out message, otherwise a spawn-level error is reported
as-is, otherwise a non-zero (or null) exit code synthesizes an error from the
exit code and trimmed stderr, and a zero exit yields no error. -/
theorem runCommandModel_error_classification (t b : Nat) (es ms : List RunEvent)
    (c : Option Int)
    (hes : ∀ e ∈ es, ∃ m, e = RunEvent.spawnError m)
    (hms : ∀ e ∈ ms, (∀ m, e ≠ RunEvent.spawnError m) ∧ ∀ cd, e ≠ RunEvent.close cd) :
    runCommandModel t b {} (es ++ ms ++ [RunEvent.close c]) =
      some (closeResult ((es ++ ms).foldl (stepEvent t b) {}) c) ∧
    (closeResult ((es ++ ms).foldl (stepEvent t b) {}) c).exitCode = c ∧
    (((es ++ ms).foldl (stepEvent t b) {}).bufferExceeded = true →
      (closeResult ((es ++ ms).foldl (stepEvent t b) {}) c).error =
          some (maxBufMsg "stdout" b) ∨
        (closeResult ((es ++ ms).foldl (stepEvent t b) {}) c).error =
          some (maxBufMsg "stderr" b)) ∧
    (((es ++ ms).foldl (stepEvent t b) {}).timedOut = true →
      ((es ++ ms).foldl (stepEvent t b) {}).bufferExceeded = false →
      (closeResult ((es ++ ms).foldl (stepEvent t b) {}) c).error =
        some (timeoutMsg t)) ∧
    (((es ++ ms).foldl (stepEvent t b) {}).timedOut = false →
      ((es ++ ms).foldl (stepEvent t b) {}).bufferExceeded = false →
      (closeResult ((es ++ ms).foldl (stepEvent t b) {}) c).error =
        match lastSpawnMsg es with
        | some m => some m
        | none =>
          if c ≠ some 0 then
            some ("Command failed with exit code " ++ codeRepr c ++ ": " ++
              jsTrim ((es ++ ms).foldl (stepEvent t b) {}).stderr)
          else none) := by
  have hl : ∀ e ∈ es ++ ms, ∀ cd, e ≠ RunEvent.close cd := by
    intro e hme cd
    rcases List.mem_append.mp hme with h | h
    · obtain ⟨m, rfl⟩ := hes e h
      simp
    · exact (hms e h).2 cd
  have hrun : runCommandModel t b {} (es ++ ms ++ [RunEvent.close c]) =
      some (closeResult ((es ++ ms).foldl (stepEvent t b) {}) c) := by
    rw [runCommandModel_append_nonclose t b (es ++ ms) hl {} [RunEvent.close c]]
    rfl
  have hinv : RunInv t b (lastSpawnMsg es) ((es ++ ms).foldl (stepEvent t b) {}) := by
    rw [List.foldl_append]
    apply foldl_ms_inv t b _ ms hms
    rw [foldl_spawn_state t b es hes]
    refine ⟨rfl, by simp, by simp, fun _ _ => ?_⟩
    show (match lastSpawnMsg es with
          | some m => some m
          | none => (({} : RunState)).error) = lastSpawnMsg es
    rcases lastSpawnMsg es with _ | m <;> rfl
  obtain ⟨i1, i2, i3, i4⟩ := hinv
  have herr_of_not : ∀ s : RunState,
      ¬(¬s.timedOut ∧ ¬s.bufferExceeded ∧ c ≠ some 0 ∧ s.error = none) →
      (closeResult s c).error = s.error := by
    intro s hno
    show (if ¬s.timedOut ∧ ¬s.bufferExceeded ∧ c ≠ some 0 ∧ s.error = none then _
          else s.error) = s.error
    rw [if_neg hno]
  refine ⟨hrun, rfl, ?_, ?_, ?_⟩
  · intro hbuf
    rw [herr_of_not _ (fun h => h.2.1 (by rw [hbuf]))]
    exact i2 hbuf
  · intro ht hbf
    rw [herr_of_not _ (fun h => h.1 (by rw [ht]))]
    exact i3 ht hbf
  · intro ht hbf
    have he0 := i4 ht hbf
    rcases hsp : lastSpawnMsg es with _ | m
    · rw [hsp] at he0
      by_cases hc : c = some 0
      · rw [herr_of_not _ (fun h => h.2.2.1 hc)]
        rw [he0]
        subst hc
        simp
      · have hcond : ¬((es ++ ms).foldl (stepEvent t b) {}).timedOut ∧
            ¬((es ++ ms).foldl (stepEvent t b) {}).bufferExceeded ∧
            c ≠ some 0 ∧ ((es ++ ms).foldl (stepEvent t b) {}).error = none := by
          refine ⟨?_, ?_, hc, he0⟩
          · rw [ht]
            exact Bool.false_ne_true
          · rw [hbf]
            exact Bool.false_ne_true
        show (if _ ∧ _ ∧ _ ∧ _ then _ else _) = _
        rw [if_pos hcond, if_pos hc]
    · rw [hsp] at he0
      rw [herr_of_not _ (fun h => by rw [he0] at h; exact Option.some_ne_none m h.2.2.2)]
      exact he0

/-- Witness for C7: a run with one stderr chunk and exit code 2. -/
theorem runCommandModel_error_classification_witness :
    runCommandModel 30000 1000 {}
        ([] ++ [RunEvent.err "boom"] ++ [RunEvent.close (some 2)]) =
      some (closeResult
        (([] ++ [RunEvent.err "boom"]).foldl (stepEvent 30000 1000) {}) (some 2)) ∧
    (closeResult (([] ++ [RunEvent.err "boom"]).foldl (stepEvent 30000 1000) {})
        (some 2)).exitCode = some 2 ∧
    ((([] ++ [RunEvent.err "boom"]).foldl (stepEvent 30000 1000) {}).bufferExceeded = true →
      (closeResult (([] ++ [RunEvent.err "boom"]).foldl (stepEvent 30000 1000) {})
          (some 2)).error = some (maxBufMsg "stdout" 1000) ∨
        (closeResult (([] ++ [RunEvent.err "boom"]).foldl (stepEvent 30000 1000) {})
          (some 2)).error = some (maxBufMsg "stderr" 1000)) ∧
    ((([] ++ [RunEvent.err "boom"]).foldl (stepEvent 30000 1000) {}).timedOut = true →
      (([] ++ [RunEvent.err "boom"]).foldl (stepEvent 30000 1000) {}).bufferExceeded = false →
      (closeResult (([] ++ [RunEvent.err "boom"]).foldl (stepEvent 30000 1000) {})
        (some 2)).error = some (timeoutMsg 30000)) ∧
    ((([] ++ [RunEvent.err "boom"]).foldl (stepEvent 30000 1000) {}).timedOut = false →
      (([] ++ [RunEvent.err "boom"]).foldl (stepEvent 30000 1000) {}).bufferExceeded = false →
      (closeResult (([] ++ [RunEvent.err "boom"]).foldl (stepEvent 30000 1000) {})
        (some 2)).error =
        match lastSpawnMsg [] with
        | some m => some m
        | none =>
          if (some 2 : Option Int) ≠ some 0 then
            some ("Command failed with exit code " ++ codeRepr (some 2) ++ ": " ++
              jsTrim (([] ++ [RunEvent.err "boom"]).foldl (stepEvent 30000 1000) {}).stderr)
          else none) :=
  runCommandModel_error_classification 30000 1000 [] [RunEvent.err "boom"] (some 2)
    (by simp)
    (by
      intro e he
      rw [List.mem_singleton] at he
      subst he
      exact ⟨fun m h => by simp at h, fun cd h => by simp at h⟩)

/-- Claim C2 (code bug): on the spec's end-to-end input line `retrieveLogs`
returns one entry with the claimed service, operation, status code and flags,
but the message-cleanup step has overwritten the API-failure message set by
the API-match step, so the message is the cleaned line rather than
`"PutObject failed: NoSuchBucket (404)"`. -/
theorem parse_putobject_line_eval :
    (retrieveLogs
        { stdout := "2025-07-23T10:58:58.710 INFO AWS s3.PutObject => 404 (NoSuchBucket)",
          stderr := "", error := none, exitCode := some 0 } none).logs =
      [{ timestamp := some "2025-07-23T10:58:58.710", level := some "INFO",
         service := some "s3", operation := some "PutObject", statusCode := some 404,
         message := "INFO AWS s3.PutObject => 404 (NoSuchBucket)",
         fullLine := "2025-07-23T10:58:58.710 INFO AWS s3.PutObject => 404 (NoSuchBucket)",
         isApiCall := true, isError := true, isWarning := false }] ∧
    (retrieveLogs
        { stdout := "2025-07-23T10:58:58.710 INFO AWS s3.PutObject => 404 (NoSuchBucket)",
          stderr := "", error := none, exitCode := some 0 } none).success = true ∧
    (retrieveLogs
        { stdout := "2025-07-23T10:58:58.710 INFO AWS s3.PutObject => 404 (NoSuchBucket)",
          stderr := "", error := none, exitCode := some 0 } none).totalLines = 1 ∧
    strStartsWith "INFO AWS s3.PutObject => 404 (NoSuchBucket)"
      "PutObject failed: NoSuchBucket (404)" = false :=
  ⟨rfl, rfl, rfl, rfl⟩

/-- Claim C3 (code bug): `runCommand` resolves (never rejects), and the
resolved path of `retrieveLogs` never inspects `cmd.error`, so a failed
command with empty stdout and stderr — e.g. a missing binary — yields
`success = true` with zero logs instead of the claimed three-way classified
failure message.  The classifier of the `catch` block exists but is dead for
command failures, and the timeout kill reason does not even contain its
`"timeout"` trigger substring. -/
theorem retrieveLogs_ignores_command_error :
    ({ stdout := "", stderr := "", error := some "spawn localstack ENOENT",
        exitCode := none } : CommandResult).error = some "spawn localstack ENOENT" ∧
    retrieveLogs
        { stdout := "", stderr := "", error := some "spawn localstack ENOENT",
          exitCode := none } none =
      { success := true, logs := [], totalLines := 0, errorMessage := none,
        filteredLines := none } ∧
    classifyRetrieveError "Command failed with exit code 1: " =
      "Unable to execute 'localstack logs' command. Please ensure LocalStack CLI is installed and LocalStack is running." ∧
    strIncludes (timeoutMsg 30000) "timeout" = false :=
  ⟨rfl, rfl, rfl, rfl⟩

/-- Claim C5 (amended): for every line on which the IAM-denial phrase matches
and which contains no `Action '..' for '..'` occurrence (whose last-match-wins
extraction would overwrite `iamAction`), the parser sets `isIamDenial`,
forces `isError`, and sets `iamAction` to the lowercased service and the
operation captured from the phrase, joined by a colon. -/
theorem parse_iam_denial_fields (line : String) (svc pr op : List Char)
    (hiam : findIam line.data = some (svc, pr, op))
    (hnores : findActionForAll line.data = []) :
    (parseLogLine line).isIamDenial = true ∧
    (parseLogLine line).isError = true ∧
    (parseLogLine line).iamAction = some (lowerStr ⟨svc⟩ ++ ":" ++ String.mk op) := by
  unfold parseLogLine applyCleanup applyActionFor applyIamDenial
  rw [hiam, hnores]
  simp

/-- Witness for C5 at a concrete denial line. -/
theorem parse_iam_denial_fields_witness :
    (parseLogLine
        "Request for service 'S3' by principal 'p' for operation 'GetObject' denied.").isIamDenial = true ∧
    (parseLogLine
        "Request for service 'S3' by principal 'p' for operation 'GetObject' denied.").isError = true ∧
    (parseLogLine
        "Request for service 'S3' by principal 'p' for operation 'GetObject' denied.").iamAction =
      some (lowerStr ⟨"S3".data⟩ ++ ":" ++ String.mk "GetObject".data) :=
  parse_iam_denial_fields
    "Request for service 'S3' by principal 'p' for operation 'GetObject' denied."
    "S3".data "p".data "GetObject".data rfl rfl

/-- Claim C5 counterexample to the claim as stated: a line containing both the
IAM-denial phrase and an `Action '..' for '..'` occurrence ends up with
`iamAction` overwritten by the latter, not the `<service>:<operation>` of the
phrase. -/
theorem parse_iam_denial_overwrite_cex :
    findIam ("Request for service 'S3' by principal 'p' for operation 'GetObject' denied. Action 'dynamodb:Scan' for 'table1'").data =
      some ("S3".data, "p".data, "GetObject".data) ∧
    (parseLogLine
        "Request for service 'S3' by principal 'p' for operation 'GetObject' denied. Action 'dynamodb:Scan' for 'table1'").isIamDenial = true ∧
    (parseLogLine
        "Request for service 'S3' by principal 'p' for operation 'GetObject' denied. Action 'dynamodb:Scan' for 'table1'").iamAction =
      some "dynamodb:Scan" ∧
    (some "dynamodb:Scan" : Option String) ≠
      some (lowerStr ⟨"S3".data⟩ ++ ":" ++ String.mk "GetObject".data) :=
  ⟨rfl, rfl, rfl, by decide⟩

/-- Claim C6 counterexample to the claim as stated: two error entries whose
messages differ only in an embedded ISO timestamp receive different group
keys, because the earlier ID-normalization rewrites the `YYYY-MM-` date
prefix to `[ID]` before the timestamp rule can match, leaving the differing
time-of-day digits in the key. -/
theorem groupKey_timestamp_diff_cex :
    ("Connection error at 2025-07-23T10:58:58.710 refused" : String) =
      "Connection error at " ++ "2025-07-23T10:58:58.710" ++ " refused" ∧
    ("Connection error at 2025-07-23T11:59:59.123 refused" : String) =
      "Connection error at " ++ "2025-07-23T11:59:59.123" ++ " refused" ∧
    isIsoTimestamp "2025-07-23T10:58:58.710" = true ∧
    isIsoTimestamp "2025-07-23T11:59:59.123" = true ∧
    ({ message := "Connection error at 2025-07-23T10:58:58.710 refused",
       isError := true } : LogEntry).isError = true ∧
    ({ message := "Connection error at 2025-07-23T11:59:59.123 refused",
       isError := true } : LogEntry).isError = true ∧
    ({ message := "Connection error at 2025-07-23T10:58:58.710 refused",
       isError := true } : LogEntry).isApiCall = false ∧
    ({ message := "Connection error at 2025-07-23T11:59:59.123 refused",
       isError := true } : LogEntry).isApiCall = false ∧
    groupKey { message := "Connection error at 2025-07-23T10:58:58.710 refused",
               isError := true } ≠
      groupKey { message := "Connection error at 2025-07-23T11:59:59.123 refused",
                 isError := true } := by
  refine ⟨rfl, rfl, rfl, rfl, rfl, rfl, rfl, rfl, ?_⟩
  decide

theorem takeWhile_append_all (q : α → Bool) (xs ys : List α)
    (hxs : ∀ x ∈ xs, q x = true)
    (hys : ys = [] ∨ ∃ y rest, ys = y :: rest ∧ q y = false) :
    (xs ++ ys).takeWhile q = xs := by
  induction xs with
  | nil =>
    rcases hys with rfl | ⟨y, rest, rfl, hy⟩
    · rfl
    · simp [List.takeWhile_cons, hy]
  | cons x xs ih =>
    rw [List.cons_append, List.takeWhile_cons, ih (fun x' hx' => hxs x' (by simp [hx']))]
    simp [hxs x (by simp)]

theorem takeWhile_append_stop (q : α → Bool) (xs ys : List α)
    (hxs : ∃ x ∈ xs, q x = false) :
    (xs ++ ys).takeWhile q = xs.takeWhile q ∧ (xs.takeWhile q).length < xs.length := by
  induction xs with
  | nil => simp at hxs
  | cons x xs ih =>
    rcases hq : q x with _ | _
    · simp [List.takeWhile_cons, hq]
    · obtain ⟨x', hx', hqx'⟩ := hxs
      rw [List.mem_cons] at hx'
      rcases hx' with rfl | hx'
      · rw [hq] at hqx'
        cases hqx'
      · obtain ⟨h1, h2⟩ := ih ⟨x', hx', hqx'⟩
        constructor
        · simp only [List.cons_append, List.takeWhile_cons, hq, h1]
        · simpa [List.takeWhile_cons, hq] using h2

theorem replScanF_cons (probe : Bool → List Char → Option (Nat × List Char))
    (fuel : Nat) (w : Bool) (c : Char) (cs : List Char) :
    replScanF probe (fuel + 1) w (c :: cs) =
      match probe w (c :: cs) with
      | some (L, repl) =>
        repl ++ replScanF probe fuel
          (match ((c :: cs).take L).getLast? with
           | some a => isWordChar a
           | none => w)
          ((c :: cs).drop L)
      | none => c :: replScanF probe fuel (isWordChar c) cs := rfl

theorem replScanF_fuel (probe : Bool → List Char → Option (Nat × List Char))
    (hprobe : ∀ w cs L r, probe w cs = some (L, r) → 1 ≤ L)
    (f1 : Nat) : ∀ (f2 : Nat) (w : Bool) (cs : List Char),
      cs.length ≤ f1 → cs.length ≤ f2 →
      replScanF probe f1 w cs = replScanF probe f2 w cs := by
  induction f1 with
  | zero =>
    intro f2 w cs h1 _h2
    have hnil : cs = [] := List.eq_nil_of_length_eq_zero (Nat.le_zero.mp h1)
    subst hnil
    cases f2 <;> rfl
  | succ f1 ih =>
    intro f2 w cs h1 h2
    rcases cs with _ | ⟨c, cs'⟩
    · cases f2 <;> rfl
    · rcases f2 with _ | f2'
      · simp at h2
      · rw [replScanF_cons, replScanF_cons]
        rcases hp : probe w (c :: cs') with _ | ⟨L, repl⟩
        · exact congrArg _ (ih f2' (isWordChar c) cs' (by simpa using h1) (by simpa using h2))
        · have hL := hprobe w (c :: cs') L repl hp
          refine congrArg _ (ih f2' _ _ ?_ ?_)
          · rw [List.length_drop]
            simp only [List.length_cons] at h1 ⊢
            omega
          · rw [List.length_drop]
            simp only [List.length_cons] at h2 ⊢
            omega

theorem mem_of_getLast?_eq (l : List Char) (a : Char) (h : l.getLast? = some a) :
    a ∈ l := by
  induction l with
  | nil => cases h
  | cons x xs ih =>
    rcases xs with _ | ⟨y, ys⟩
    · rw [List.getLast?_singleton] at h
      simp at h
      simp [h]
    · rw [List.getLast?_cons_cons] at h
      exact List.mem_cons_of_mem x (ih h)

theorem getLast?_drop_of_lt (p : List Char) : ∀ (L : Nat), L < p.length →
    (p.drop L).getLast? = p.getLast? := by
  induction p with
  | nil => intro L hL; simp at hL
  | cons x p' ih =>
    intro L hL
    rcases L with _ | L'
    · rfl
    · rw [List.drop_succ_cons]
      have hL' : L' < p'.length := by
        simp only [List.length_cons] at hL
        omega
      rw [ih L' hL']
      rcases p' with _ | ⟨y, ys⟩
      · simp at hL'
      · rw [List.getLast?_cons_cons]

theorem boundaryAfter_append (p t : List Char) (L : Nat) (hL : L < p.length) :
    boundaryAfter (p ++ t) L = boundaryAfter p L := by
  unfold boundaryAfter
  rw [List.get?_append (by omega : L - 1 < p.length), List.get?_append hL]

theorem pickLen_append (p t t' : List Char) : ∀ (L : Nat), L < p.length →
    pickLen (p ++ t) L = pickLen (p ++ t') L := by
  intro L
  induction L with
  | zero => intro _; rfl
  | succ L ih =>
    intro hL
    unfold pickLen
    rw [boundaryAfter_append p t (L + 1) hL, boundaryAfter_append p t' (L + 1) hL,
      ih (by omega)]

theorem pickLen_bounds (cs : List Char) : ∀ (L0 L : Nat),
    pickLen cs L0 = some L → 8 ≤ L ∧ L ≤ L0 := by
  intro L0
  induction L0 with
  | zero => intro L h; cases h
  | succ L0 ih =>
    intro L h
    unfold pickLen at h
    split at h
    · cases h
    · split at h
      · rename_i hge _
        rw [Option.some.injEq] at h
        omega
      · have := ih L h
        omega

theorem tryIdMatch_cons (w : Bool) (c : Char) (cs' : List Char) :
    tryIdMatch w (c :: cs') =
      (if w = isWordChar c then none
       else if ((c :: cs').takeWhile isIdClass).length < 8 then none
       else (pickLen (c :: cs') ((c :: cs').takeWhile isIdClass).length).map
         fun L => (L, "[ID]".data)) := rfl

theorem tryIdMatch_pos (w : Bool) (cs : List Char) (L : Nat) (r : List Char)
    (h : tryIdMatch w cs = some (L, r)) : 1 ≤ L := by
  rcases cs with _ | ⟨c, cs'⟩
  · cases h
  · rw [tryIdMatch_cons] at h
    split at h
    · cases h
    · split at h
      · cases h
      · rw [Option.map_eq_some'] at h
        obtain ⟨L', hL', heq⟩ := h
        have := pickLen_bounds _ _ _ hL'
        rw [Prod.mk.injEq] at heq
        omega

theorem tryIdMatch_append (w : Bool) (p t t' : List Char)
    (hnc : ∃ x ∈ p, isIdClass x = false) :
    tryIdMatch w (p ++ t) = tryIdMatch w (p ++ t') ∧
    (∀ L r, tryIdMatch w (p ++ t) = some (L, r) → L < p.length) := by
  rcases p with _ | ⟨c, p'⟩
  · simp at hnc
  · obtain ⟨htw, hlen⟩ := takeWhile_append_stop isIdClass (c :: p') t hnc
    obtain ⟨htw', _⟩ := takeWhile_append_stop isIdClass (c :: p') t' hnc
    simp only [List.cons_append] at htw htw' ⊢
    rw [tryIdMatch_cons, tryIdMatch_cons, htw, htw']
    have hpl : pickLen (c :: (p' ++ t)) ((c :: p').takeWhile isIdClass).length =
        pickLen (c :: (p' ++ t')) ((c :: p').takeWhile isIdClass).length := by
      have h := pickLen_append (c :: p') t t' ((c :: p').takeWhile isIdClass).length hlen
      simpa [List.cons_append] using h
    rw [hpl]
    refine ⟨rfl, ?_⟩
    intro L r h
    split at h
    · cases h
    · split at h
      · cases h
      · rw [Option.map_eq_some'] at h
        obtain ⟨L', hL', heq⟩ := h
        have hb := pickLen_bounds _ _ _ hL'
        rw [Prod.mk.injEq] at heq
        simp only [List.length_cons]
        simp only [List.length_cons] at hlen
        omega

theorem tryIdMatch_uuid (u s : List Char)
    (hu : ∀ c ∈ u, isIdClass c = true) (hlen : 8 ≤ u.length)
    (hh : ∃ c, u.head? = some c ∧ isWordChar c = true)
    (hz : ∃ c, u.getLast? = some c ∧ isWordChar c = true)
    (hs : s = [] ∨ ∃ c rest, s = c :: rest ∧ isSepChar c = true) :
    tryIdMatch false (u ++ s) = some (u.length, "[ID]".data) := by
  obtain ⟨h0, hh0, hw0⟩ := hh
  obtain ⟨z, hz0, hwz⟩ := hz
  rcases u with _ | ⟨c, u'⟩
  · cases hh0
  · have hc : c = h0 := by
      simp only [List.head?_cons, Option.some.injEq] at hh0
      exact hh0
    subst hc
    simp only [List.cons_append]
    rw [tryIdMatch_cons]
    rw [if_neg (by rw [hw0]; exact Bool.false_ne_true)]
    have htw : (c :: (u' ++ s)).takeWhile isIdClass = c :: u' := by
      have h := takeWhile_append_all isIdClass (c :: u') s hu ?_
      · simpa [List.cons_append] using h
      · rcases hs with rfl | ⟨y, rest, rfl, hy⟩
        · exact Or.inl rfl
        · refine Or.inr ⟨y, rest, rfl, ?_⟩
          unfold isSepChar at hy
          rw [Bool.and_eq_true, Bool.not_eq_true', Bool.not_eq_true'] at hy
          exact hy.2
    rw [htw]
    rw [if_neg (by simp only [List.length_cons]; simp only [List.length_cons] at hlen; omega)]
    have hg1 : (c :: (u' ++ s)).get? u'.length = some z := by
      rw [show (c :: (u' ++ s)) = (c :: u') ++ s from by simp,
        List.get?_append (show u'.length < (c :: u').length by simp)]
      have hg := List.getLast?_eq_get? (c :: u')
      rw [hz0] at hg
      simp only [List.length_cons, Nat.add_sub_cancel] at hg
      exact hg.symm
    have hg2 : (c :: (u' ++ s)).get? (u'.length + 1) = s.head? := by
      rw [show (c :: (u' ++ s)) = (c :: u') ++ s from by simp,
        List.get?_append_right (show (c :: u').length ≤ u'.length + 1 by simp)]
      simp only [List.length_cons, Nat.sub_self]
      cases s <;> rfl
    have hbound : boundaryAfter (c :: (u' ++ s)) (u'.length + 1) = true := by
      unfold boundaryAfter
      rw [Nat.add_sub_cancel, hg1, hg2]
      rcases hs with rfl | ⟨y, rest, rfl, hy⟩
      · exact hwz
      · simp only [List.head?_cons]
        unfold isSepChar at hy
        rw [Bool.and_eq_true, Bool.not_eq_true', Bool.not_eq_true'] at hy
        rw [hwz, hy.1]
        rfl
    have hpl : pickLen (c :: (u' ++ s)) (c :: u').length = some (c :: u').length := by
      rw [show (c :: u').length = u'.length + 1 from rfl]
      unfold pickLen
      rw [if_neg (by simp only [List.length_cons] at hlen; omega), if_pos hbound]
    rw [hpl]
    rfl

theorem idScan_uuid_step (s : List Char)
    (hs : s = [] ∨ ∃ c rest, s = c :: rest ∧ isSepChar c = true)
    (u : List Char) (hu : ∀ c ∈ u, isIdClass c = true) (hlen : 8 ≤ u.length)
    (hh : ∃ c, u.head? = some c ∧ isWordChar c = true)
    (hz : ∃ c, u.getLast? = some c ∧ isWordChar c = true) :
    replScanF tryIdMatch (u ++ s).length false (u ++ s) =
      "[ID]".data ++ replScanF tryIdMatch s.length true s := by
  obtain ⟨z, hz0, hwz⟩ := hz
  rcases u with _ | ⟨c, u'⟩
  · simp at hlen
  · have hmatch : tryIdMatch false (c :: (u' ++ s)) =
        some ((c :: u').length, "[ID]".data) := by
      have h := tryIdMatch_uuid (c :: u') s hu hlen hh ⟨z, hz0, hwz⟩ hs
      simpa [List.cons_append] using h
    simp only [List.cons_append, List.length_cons]
    rw [show (u' ++ s).length + 1 = (u' ++ s).length + 1 from rfl, replScanF_cons, hmatch]
    simp only
    have htake : (c :: (u' ++ s)).take (c :: u').length = c :: u' := by
      rw [show (c :: (u' ++ s)) = (c :: u') ++ s from by simp]
      exact List.take_left (c :: u') s
    have hdrop : (c :: (u' ++ s)).drop (c :: u').length = s := by
      rw [show (c :: (u' ++ s)) = (c :: u') ++ s from by simp]
      exact List.drop_left (c :: u') s
    rw [htake, hdrop, hz0]
    simp only [hwz]
    rw [replScanF_fuel tryIdMatch tryIdMatch_pos (u' ++ s).length s.length true s
      (by simp) (le_refl _)]
    rfl

theorem idScan_split : ∀ (n : Nat) (p : List Char), p.length ≤ n →
    ∀ (w : Bool) (u1 u2 s : List Char),
    (p = [] → w = false) →
    (p ≠ [] → ∃ c, p.getLast? = some c ∧ isSepChar c = true) →
    (∀ c ∈ u1, isIdClass c = true) → 8 ≤ u1.length →
    (∃ c, u1.head? = some c ∧ isWordChar c = true) →
    (∃ c, u1.getLast? = some c ∧ isWordChar c = true) →
    (∀ c ∈ u2, isIdClass c = true) → 8 ≤ u2.length →
    (∃ c, u2.head? = some c ∧ isWordChar c = true) →
    (∃ c, u2.getLast? = some c ∧ isWordChar c = true) →
    (s = [] ∨ ∃ c rest, s = c :: rest ∧ isSepChar c = true) →
    replScanF tryIdMatch (p ++ (u1 ++ s)).length w (p ++ (u1 ++ s)) =
      replScanF tryIdMatch (p ++ (u2 ++ s)).length w (p ++ (u2 ++ s)) := by
  intro n
  induction n with
  | zero =>
    intro p hp w u1 u2 s hw _hsep hu1 hl1 hh1 hz1 hu2 hl2 hh2 hz2 hs
    have hpn : p = [] := List.eq_nil_of_length_eq_zero (Nat.le_zero.mp hp)
    subst hpn
    rw [hw rfl]
    simp only [List.nil_append]
    rw [idScan_uuid_step s hs u1 hu1 hl1 hh1 hz1,
      idScan_uuid_step s hs u2 hu2 hl2 hh2 hz2]
  | succ n ih =>
    intro p hp w u1 u2 s hw hsep hu1 hl1 hh1 hz1 hu2 hl2 hh2 hz2 hs
    rcases p with _ | ⟨c, p'⟩
    · rw [hw rfl]
      simp only [List.nil_append]
      rw [idScan_uuid_step s hs u1 hu1 hl1 hh1 hz1,
        idScan_uuid_step s hs u2 hu2 hl2 hh2 hz2]
    · obtain ⟨csep, hlast, hcsep⟩ := hsep (by simp)
      have hsep' : isWordChar csep = false ∧ isIdClass csep = false := by
        unfold isSepChar at hcsep
        rw [Bool.and_eq_true, Bool.not_eq_true', Bool.not_eq_true'] at hcsep
        exact hcsep
      have hnc : ∃ x ∈ (c :: p'), isIdClass x = false :=
        ⟨csep, mem_of_getLast?_eq _ _ hlast, hsep'.2⟩
      obtain ⟨heq, hlt⟩ := tryIdMatch_append w (c :: p') (u1 ++ s) (u2 ++ s) hnc
      simp only [List.cons_append] at heq hlt
      simp only [List.cons_append, List.length_cons]
      rw [replScanF_cons, replScanF_cons, ← heq]
      rcases hm : tryIdMatch w (c :: (p' ++ (u1 ++ s))) with _ | ⟨L, r⟩
      · simp only
        congr 1
        apply ih p' (by simp only [List.length_cons] at hp; omega) (isWordChar c) u1 u2 s
          ?_ ?_ hu1 hl1 hh1 hz1 hu2 hl2 hh2 hz2 hs
        · intro hp'
          subst hp'
          have hc : c = csep := by
            simp only [List.getLast?_singleton, Option.some.injEq] at hlast
            exact hlast
          rw [hc]
          exact hsep'.1
        · intro hp'
          rcases p' with _ | ⟨y, ys⟩
          · exact absurd rfl hp'
          · rw [List.getLast?_cons_cons] at hlast
            exact ⟨csep, hlast, hcsep⟩
      · have hLlt : L < (c :: p').length := by
          have := hlt L r (by simpa [List.cons_append] using hm)
          exact this
        have hLle : L ≤ p'.length + 1 := by
          simp only [List.length_cons] at hLlt
          omega
        simp only
        have htake1 : (c :: (p' ++ (u1 ++ s))).take L = (c :: p').take L := by
          rw [show (c :: (p' ++ (u1 ++ s))) = (c :: p') ++ (u1 ++ s) from by simp]
          exact List.take_append_of_le_length (by simp only [List.length_cons]; omega)
        have htake2 : (c :: (p' ++ (u2 ++ s))).take L = (c :: p').take L := by
          rw [show (c :: (p' ++ (u2 ++ s))) = (c :: p') ++ (u2 ++ s) from by simp]
          exact List.take_append_of_le_length (by simp only [List.length_cons]; omega)
        have hdrop1 : (c :: (p' ++ (u1 ++ s))).drop L = ((c :: p').drop L) ++ (u1 ++ s) := by
          rw [show (c :: (p' ++ (u1 ++ s))) = (c :: p') ++ (u1 ++ s) from by simp]
          exact List.drop_append_of_le_length (by simp only [List.length_cons]; omega)
        have hdrop2 : (c :: (p' ++ (u2 ++ s))).drop L = ((c :: p').drop L) ++ (u2 ++ s) := by
          rw [show (c :: (p' ++ (u2 ++ s))) = (c :: p') ++ (u2 ++ s) from by simp]
          exact List.drop_append_of_le_length (by simp only [List.length_cons]; omega)
        rw [htake1, htake2, hdrop1, hdrop2]
        have hqlen : ((c :: p').drop L).length = p'.length + 1 - L := by
          rw [List.length_drop]
          simp
        have hfuel1 : (((c :: p').drop L) ++ (u1 ++ s)).length ≤ (p' ++ (u1 ++ s)).length := by
          simp only [List.length_append, hqlen]
          have hL1 : 1 ≤ L := tryIdMatch_pos w _ L r hm
          omega
        have hfuel2 : (((c :: p').drop L) ++ (u2 ++ s)).length ≤ (p' ++ (u2 ++ s)).length := by
          simp only [List.length_append, hqlen]
          have hL1 : 1 ≤ L := tryIdMatch_pos w _ L r hm
          omega
        rw [replScanF_fuel tryIdMatch tryIdMatch_pos (p' ++ (u1 ++ s)).length
            (((c :: p').drop L) ++ (u1 ++ s)).length _ _ hfuel1 (le_refl _),
          replScanF_fuel tryIdMatch tryIdMatch_pos (p' ++ (u2 ++ s)).length
            (((c :: p').drop L) ++ (u2 ++ s)).length _ _ hfuel2 (le_refl _)]
        congr 1
        apply ih ((c :: p').drop L) ?_ _ u1 u2 s ?_ ?_ hu1 hl1 hh1 hz1 hu2 hl2 hh2 hz2 hs
        · rw [hqlen]
          simp only [List.length_cons] at hp
          have hL1 : 1 ≤ L := tryIdMatch_pos w _ L r hm
          omega
        · intro hqnil
          have : ((c :: p').drop L).length = 0 := by rw [hqnil]; rfl
          rw [hqlen] at this
          simp only [List.length_cons] at hLlt
          omega
        · intro _
          refine ⟨csep, ?_, hcsep⟩
          rw [getLast?_drop_of_lt (c :: p') L hLlt]
          exact hlast

/-- Claim C6 (amended): two error/warning entries not keyed as API calls whose
messages differ only in an embedded UUID-like token — at least eight
characters of the class `[a-fA-F0-9-]`, beginning and ending with a word
character, delimited on both sides by characters that are neither word
characters nor in the class (or by the message ends) — receive the same group
key from the normalization chain, and `groupLogsByError` files both entries
under that one key.  For messages differing only in an embedded ISO
timestamp the property fails (see the counterexample): the earlier `[ID]`
rule consumes the `YYYY-MM-` prefix before the `[TIMESTAMP]` rule can
match. -/
theorem groupLogsByError_uuid_same_key (e1 e2 : LogEntry) (p u1 u2 s : List Char)
    (herr1 : e1.isError = true ∨ e1.isWarning = true)
    (herr2 : e2.isError = true ∨ e2.isWarning = true)
    (hapi1 : e1.isApiCall = false) (hapi2 : e2.isApiCall = false)
    (hm1 : e1.message.data = p ++ u1 ++ s) (hm2 : e2.message.data = p ++ u2 ++ s)
    (hu1 : ∀ c ∈ u1, isIdClass c = true) (hl1 : 8 ≤ u1.length)
    (hh1 : ∃ c, u1.head? = some c ∧ isWordChar c = true)
    (hz1 : ∃ c, u1.getLast? = some c ∧ isWordChar c = true)
    (hu2 : ∀ c ∈ u2, isIdClass c = true) (hl2 : 8 ≤ u2.length)
    (hh2 : ∃ c, u2.head? = some c ∧ isWordChar c = true)
    (hz2 : ∃ c, u2.getLast? = some c ∧ isWordChar c = true)
    (hp : p = [] ∨ ∃ c, p.getLast? = some c ∧ isSepChar c = true)
    (hs : s = [] ∨ ∃ c rest, s = c :: rest ∧ isSepChar c = true) :
    groupKey e1 = groupKey e2 ∧
    groupLogsByError [e1, e2] = [(groupKey e1, [e1, e2])] := by
  have hkey : groupKey e1 = groupKey e2 := by
    unfold groupKey
    rw [hapi1, hapi2]
    simp only [Bool.false_and]
    rw [if_neg (by simp), if_neg (by simp)]
    unfold normalizeMsg replScan
    rw [hm1, hm2]
    have hid : replScanF tryIdMatch (p ++ u1 ++ s).length false (p ++ u1 ++ s) =
        replScanF tryIdMatch (p ++ u2 ++ s).length false (p ++ u2 ++ s) := by
      have h := idScan_split p.length p (le_refl _) false u1 u2 s
        (fun _ => rfl)
        (fun hpne => by
          rcases hp with rfl | h
          · exact absurd rfl hpne
          · exact h)
        hu1 hl1 hh1 hz1 hu2 hl2 hh2 hz2 hs
      simpa [List.append_assoc] using h
    rw [hid]
  have hb1 : (e1.isError || e1.isWarning) = true := by
    rcases herr1 with h | h <;> simp [h]
  have hb2 : (e2.isError || e2.isWarning) = true := by
    rcases herr2 with h | h <;> simp [h]
  refine ⟨hkey, ?_⟩
  unfold groupLogsByError
  simp only [List.foldl_cons, List.foldl_nil, hb1, hb2, if_true]
  rw [show addToGroup [] (groupKey e1) e1 = [(groupKey e1, [e1])] from rfl,
    show addToGroup [(groupKey e1, [e1])] (groupKey e2) e2 =
      (if groupKey e1 = groupKey e2 then (groupKey e1, [e1] ++ [e2]) :: []
       else (groupKey e1, [e1]) :: addToGroup [] (groupKey e2) e2) from rfl,
    if_pos hkey]
  rfl

/-- Witness for C6 at two concrete messages differing only in a UUID. -/
theorem groupLogsByError_uuid_same_key_witness :
    groupKey { message := "Request failed for id 123e4567-e89b-12d3-a456-426614174000 please retry",
               isError := true } =
      groupKey { message := "Request failed for id fe0db54273314171a7bd2e236e58322c please retry",
                 isError := true } ∧
    groupLogsByError
        [{ message := "Request failed for id 123e4567-e89b-12d3-a456-426614174000 please retry",
           isError := true },
         { message := "Request failed for id fe0db54273314171a7bd2e236e58322c please retry",
           isError := true }] =
      [(groupKey { message := "Request failed for id 123e4567-e89b-12d3-a456-426614174000 please retry",
                   isError := true },
        [{ message := "Request failed for id 123e4567-e89b-12d3-a456-426614174000 please retry",
           isError := true },
         { message := "Request failed for id fe0db54273314171a7bd2e236e58322c please retry",
           isError := true }])] :=
  groupLogsByError_uuid_same_key
    { message := "Request failed for id 123e4567-e89b-12d3-a456-426614174000 please retry",
      isError := true }
    { message := "Request failed for id fe0db54273314171a7bd2e236e58322c please retry",
      isError := true }
    "Request failed for id ".data
    "123e4567-e89b-12d3-a456-426614174000".data
    "fe0db54273314171a7bd2e236e58322c".data
    " please retry".data
    (Or.inl rfl) (Or.inl rfl) rfl rfl (by decide) (by decide)
    (by decide) (by decide)
    ⟨'1', by decide, by decide⟩ ⟨'0', by decide, by decide⟩
    (by decide) (by decide)
    ⟨'f', by decide, by decide⟩ ⟨'c', by decide, by decide⟩
    (Or.inr ⟨' ', by decide, by decide⟩)
    (Or.inr ⟨' ', "please retry".data, by decide, by decide⟩)
